import Mathlib

/-!
# Verification development for the clinic-data-sync repository

Shallow embedding of the incremental synchronization core:

* `app/utils/formatting.py` — `format_patient_data`
* `app/main.py` — `calculate_patient_hash`, `process_patient`,
  `process_and_register_patient`, `main` (the run orchestrator)
* `app/export/csv_exporter.py` — `append_to_management_report`
  (the aggregate-report merger)

Modelling conventions, used consistently below:

* Calendar dates are modelled by natural numbers ordered like calendar
  dates.  A Python `date` object `D` is a `Nat`; the string `str(D)`
  (equivalently `D.strftime("%Y-%m-%d")`), stored in the registry and
  compared lexicographically in the source, is modelled by the same
  `Nat` — lexicographic order on ISO date strings coincides with the
  calendar order, so the string comparison `latest_appt > last_saved_appt`
  of `main.py` is the numeric comparison here.
* The MD5 digest of `calculate_patient_hash` is abstracted by the value
  it is computed from: the `key_fields` association list brought to the
  canonical form produced by `json.dumps(key_fields, sort_keys=True)`,
  i.e. sorted by key.  Two digests are equal in the model iff the
  canonical serializations are equal — MD5 is treated as injective
  (collision-free), which is the reading under which the specification's
  determinism clause is stated.
* Python dictionaries whose key set is statically fixed by the source
  (DB rows accessed only through `.get`, and the registry entries'
  well-known fields) are modelled by records with `Option` fields
  (`none` = SQL `NULL` / JSON `null`).  Dictionaries that are indexed
  with `row["KEY"]` — which raises `KeyError` when the key is absent —
  are modelled as string-keyed association lists with a fallible lookup
  returning `Except`.
* Registry entries (`known_patients.json` values) are association lists
  `List (String × EVal)` so that unknown legacy keys can be represented;
  Python dict assignment (overwrite in place, append new keys at the
  end, preserving insertion order) is `setAL`.
-/

/-- A scalar Python value as it occurs in a DB row. -/
inductive Scalar
  | s (v : String)
  | i (v : Int)
  | b (v : Bool)
deriving DecidableEq, Repr

/-- Python truthiness of a scalar: empty string, `0` and `False` are falsy. -/
def truthyS : Scalar → Bool
  | .s v => v ≠ ""
  | .i v => v ≠ 0
  | .b v => v

/-- A string that may or may not denote an ISO (`%Y-%m-%d`) date.
`iso d` stands for the ISO rendering of the date `d`; `other v` is any
string not in ISO date format (the split is a modelling convention so
that `datetime.strptime(s, "%Y-%m-%d")` becomes a total case split). -/
inductive DStr
  | iso (d : Nat)
  | other (v : String)
deriving DecidableEq, Repr

/-- One enriched appointment dict produced by
`extract.fetch_future_appointments`.  The source dict carries each value
twice (raw key and Russian display key, e.g. `WORK_DATE_STR` and
`Дата`); since both copies always hold the same value they are a single
field here. -/
structure ApptRow where
  workDateStr : Option DStr
  doctorName : Option String
  filialName : Option String
  comment : Option String
  status : String
deriving DecidableEq, Repr

/-- A complex-plan detail row (keys `SCHNAME`, `SCOUNT`, `ROUND`,
accessed only via `.get`). -/
structure CompDetail where
  schname : Option String
  scount : Option Int
  roundAmt : Option Int
deriving DecidableEq, Repr

/-- A complex plan with its detail rows (`extract.collect_patient_data`
copies the DB row and attaches `details`); only the keys read by
`format_patient_data` are modelled. -/
structure ComplexPlan where
  plantypename : Option String
  depname : Option String
  details : List CompDetail
deriving DecidableEq, Repr

/-- An approved-plan detail row (keys `SCHNAME`, `SCOUNT`, `AMOUNTRUB`). -/
structure ApprDetail where
  schname : Option String
  scount : Option Int
  amountrub : Option Int
deriving DecidableEq, Repr

/-- One grouped approved plan as assembled by `collect_patient_data`. -/
structure ApprovedPlan where
  depname : Option String
  summarub : Option Int
  treatdate : Option Nat
  doctorName : Option String
  details : List ApprDetail
deriving DecidableEq, Repr

/-- The main-info DB row (`fetch_main_info`); the column set of the SQL
query is fixed, so every key is present and values are nullable. -/
structure Info where
  lastname : Option String
  firstname : Option String
  midname : Option String
  bdate : Option Nat
  fullAddr : Option String
  phone1 : Option String
  phone2 : Option String
  phone3 : Option String
  clmail : Option String
  filialName : Option String
  reklama : Option Scalar
  consultDoctor : Option String
  firstworkdate : Option Nat
  firstDoctor : Option String
  agestatusName : Option String
  typestatusName : Option String
  visitCount : Option Int
deriving DecidableEq, Repr

/-- A DB row treated as a plain dict and indexed with `row["KEY"]`
(raises `KeyError` when the key is absent): modelled as an association
list from column name to nullable scalar. -/
abbrev PyRow := List (String × Option Scalar)

/-- `row["KEY"]` — Python dict indexing, raises `KeyError` on a missing
key. -/
def pyGet (row : PyRow) (k : String) : Except String (Option Scalar) :=
  match row.lookup k with
  | some v => .ok v
  | none => .error ("KeyError: " ++ k)

/-- The full per-patient snapshot assembled by
`extract.collect_patient_data`.  The `appointments` key of the source
dict duplicates `future_appointments` and is read by nobody downstream,
so it is omitted. -/
structure Snapshot where
  info : Option Info
  lastObslnum : Option Int
  params : List PyRow
  compositePlan : List PyRow
  currentStage : Option String
  complexPlans : List ComplexPlan
  approvedPlans : List ApprovedPlan
  approvedPlansPaid : Int
  futureAppointments : List ApptRow
deriving Repr

/-- `f"{x}"` for a string-or-None value: Python renders `None` as the
four-letter string `"None"`. -/
def pyStrOpt : Option String → String
  | none => "None"
  | some s => s

/-- `x or default` for a nullable string (`None` and `""` are falsy). -/
def orDefault (v : Option String) (dflt : String) : String :=
  match v with
  | some s => if s = "" then dflt else s
  | none => dflt

/-- Whitespace for the purposes of `str.strip()` (space, tab, newline,
carriage return — the kinds that occur in this program's data). -/
def isSpaceChar (c : Char) : Bool :=
  c = ' ' ∨ c = '\t' ∨ c = '\n' ∨ c = '\r'

/-- Python `str.strip()`: drop leading and trailing whitespace.
(Defined by structural recursion on the character list; the built-in
`String.trim` computes the same result but is not kernel-reducible.) -/
def pyStrip (s : String) : String :=
  ⟨((s.data.dropWhile isSpaceChar).reverse.dropWhile isSpaceChar).reverse⟩

/-- Python `str.startswith(p)`. -/
def strStartsWith (s p : String) : Bool :=
  p.data.isPrefixOf s.data

/-- One detail line of a prettified plan
(`{"name": ..., "count": ..., "amount": ..., "total": ...}`). -/
structure DetailOut where
  name : Option String
  count : Int
  amount : Int
  total : Int
deriving DecidableEq, Repr

/-- A prettified complex plan (`{"План", "Состав", "Итого"}`). -/
structure PrettyPlan where
  plan : String
  sostav : List DetailOut
  itogo : Int
deriving DecidableEq, Repr

/-- A prettified approved plan
(`{"План", "Дата", "Доктор", "Состав", "Итого"}`); `dataT` is the
`TREATDATE` rendered `%d.%m.%Y`, `none` when absent (rendered `—`). -/
structure PrettyAppr where
  plan : String
  dataT : Option Nat
  doctor : String
  sostav : List DetailOut
  itogo : Int
deriving DecidableEq, Repr

/-- The result dict of `format_patient_data`.  Field names transliterate
the Russian keys of the source dict, in source order.  `dataRozhdeniya`
and `dataPervichnogo` hold the underlying date (`none` = the `—`
rendering of an absent date). -/
structure Formatted where
  fio : String
  familiya : Option String
  imya : Option String
  otchestvo : Option String
  dataRozhdeniya : Option Nat
  adres : String
  telefon : String
  email : String
  filial : String
  poRekomendacii : Scalar
  fioKonsultanta : String
  dataPervichnogo : Option Nat
  doktorPervichnogo : String
  statusPacienta : String
  tipPacienta : String
  tekushchayaStadiya : String
  kolichestvoVizitov : Int
  predstoyashchiePriyomy : List ApptRow
  parametryObsledovaniya : List (Option Scalar × Option Scalar)
  sostavnoyPlan : List (Option Scalar)
  kompleksnyePlany : List PrettyPlan
  soglasovannyePlany : List PrettyAppr
  obshchayaOplachennaya : Int
deriving DecidableEq, Repr

/-- The `Параметры обследования` comprehension
`{p["NAMEPARAMS"]: p["VALUETEXT"] for p in params}`: both indexings can
raise `KeyError`, and nothing catches it.  The dict is modelled by the
pair list in iteration order (later duplicate keys would overwrite
earlier ones in Python; the field is not part of the digest, so the
association-list view is sufficient). -/
def projParams : List PyRow → Except String (List (Option Scalar × Option Scalar))
  | [] => .ok []
  | row :: rest => do
      let n ← pyGet row "NAMEPARAMS"
      let v ← pyGet row "VALUETEXT"
      let tail ← projParams rest
      pure ((n, v) :: tail)

/-- The `Составной план` comprehension
`[p["CONCATENATION"] for p in comp_plan]`: the indexing can raise
`KeyError`, uncaught. -/
def projComposite : List PyRow → Except String (List (Option Scalar))
  | [] => .ok []
  | row :: rest => do
      let v ← pyGet row "CONCATENATION"
      let tail ← projComposite rest
      pure (v :: tail)

/-- Prettify one complex-plan detail row (`count = d.get("SCOUNT") or 0`
etc.; `x or 0` coincides with `getD 0` on integers). -/
def prettyCompDetail (d : CompDetail) : DetailOut :=
  let count := d.scount.getD 0
  let amount := d.roundAmt.getD 0
  { name := d.schname, count := count, amount := amount, total := count * amount }

/-- Prettify one approved-plan detail row. -/
def prettyApprDetail (d : ApprDetail) : DetailOut :=
  let count := d.scount.getD 0
  let amount := d.amountrub.getD 0
  { name := d.schname, count := count, amount := amount, total := count * amount }

/-- Sum of the per-line totals of a detail list (the running `total`
accumulator of the source loop). -/
def sumTotals (l : List DetailOut) : Int :=
  l.foldl (fun acc d => acc + d.total) 0

/-- Prettify one complex plan.  The header is the f-string
`f"{cp.get('PLANTYPENAME', '—')} ({cp.get('DEPNAME', '—')})"`; since the
DB row always carries both columns, the `'—'` default is dead and a
`NULL` value renders as Python's `"None"`. -/
def prettyComplex (cp : ComplexPlan) : PrettyPlan :=
  let details := cp.details.map prettyCompDetail
  { plan := pyStrOpt cp.plantypename ++ " (" ++ pyStrOpt cp.depname ++ ")",
    sostav := details,
    itogo := sumTotals details }

/-- Prettify one approved plan. -/
def prettyApproved (p : ApprovedPlan) : PrettyAppr :=
  let details := p.details.map prettyApprDetail
  { plan := "Согласованный план (" ++ pyStrOpt p.depname ++ ")",
    dataT := p.treatdate,
    doctor := orDefault p.doctorName "—",
    sostav := details,
    itogo := sumTotals details }

/-- `app/utils/formatting.py: format_patient_data`.  The only places the
source can raise are the two comprehensions that index rows with
`row["KEY"]` (`params` and `composite_plan`); every other projection
uses `.get` with a default and cannot throw.  `info = data.get("info")
or {}` makes every `info.get(...)` fall back to its default when the
main-info row is absent. -/
def format_patient_data (data : Snapshot) : Except String Formatted := do
  let info := data.info
  let gS : (Info → Option String) → String := fun f =>
    match info with
    | none => ""
    | some i => pyStrOpt (f i)
  let gO : {α : Type} → (Info → Option α) → Option α := fun f =>
    match info with
    | none => none
    | some i => f i
  let params ← projParams data.params
  let sostavPlan ← projComposite data.compositePlan
  let complexPretty := data.complexPlans.map prettyComplex
  let approvedPretty := data.approvedPlans.map prettyApproved
  pure {
    fio := pyStrip (gS (·.lastname) ++ " " ++ gS (·.firstname) ++ " " ++ gS (·.midname)),
    familiya := match info with | none => some "" | some i => i.lastname,
    imya := match info with | none => some "" | some i => i.firstname,
    otchestvo := match info with | none => some "" | some i => i.midname,
    dataRozhdeniya := gO (·.bdate),
    adres := orDefault (gO (·.fullAddr)) "—",
    telefon :=
      let parts := [gO (·.phone1), gO (·.phone2), gO (·.phone3)].filterMap id
        |>.filter (fun t => t ≠ "")
      let joined := String.intercalate ", " parts
      if joined = "" then "—" else joined,
    email := orDefault (gO (·.clmail)) "—",
    filial := orDefault (gO (·.filialName)) "—",
    poRekomendacii :=
      match gO (·.reklama) with
      | some v => if truthyS v then v else .i 0
      | none => .i 0,
    fioKonsultanta := orDefault (gO (·.consultDoctor)) "—",
    dataPervichnogo := gO (·.firstworkdate),
    doktorPervichnogo := orDefault (gO (·.firstDoctor)) "—",
    statusPacienta := orDefault (gO (·.agestatusName)) "Статус не установлен",
    tipPacienta := orDefault (gO (·.typestatusName)) "Статус не установлен",
    tekushchayaStadiya := orDefault data.currentStage "—",
    kolichestvoVizitov := (gO (·.visitCount)).getD 0,
    predstoyashchiePriyomy := data.futureAppointments,
    parametryObsledovaniya := params,
    sostavnoyPlan := sostavPlan,
    kompleksnyePlany := complexPretty,
    soglasovannyePlany := approvedPretty,
    obshchayaOplachennaya := data.approvedPlansPaid }

/-- A JSON-serializable value as it enters the digest.  `rudate d`
stands for the `%d.%m.%Y` rendering of the date `d` (distinct dates
render to distinct strings); `appts` is a serialized list of
appointment dicts. -/
inductive HVal
  | null
  | s (v : String)
  | i (v : Int)
  | b (v : Bool)
  | rudate (d : Nat)
  | appts (l : List ApptRow)
deriving DecidableEq, Repr

/-- Embed a raw scalar into a digest value. -/
def hvOfScalar : Scalar → HVal
  | .s v => .s v
  | .i v => .i v
  | .b v => .b v

/-- Digest value of a nullable string field. -/
def hvOptStr : Option String → HVal
  | none => .null
  | some v => .s v

/-- The `key_fields` dict literal of `main.calculate_patient_hash`, in
source insertion order.  Four of the lookups (`Возраст пациента`,
`Процент выполнения плана, %`, `Стадия`, `Ответственный`) name keys that
`format_patient_data` never produces, so they are constantly `null`. -/
def keyFields (f : Formatted) : List (String × HVal) :=
  [("ФИО", .s f.fio),
   ("Фамилия", hvOptStr f.familiya),
   ("Имя", hvOptStr f.imya),
   ("Отчество", hvOptStr f.otchestvo),
   ("Возраст пациента", .null),
   ("ФИО консультанта", .s f.fioKonsultanta),
   ("Тип пациента 1", .s f.statusPacienta),
   ("Тип пациента 2", .s f.tipPacienta),
   ("Доктор первичного приёма", .s f.doktorPervichnogo),
   ("Дата первичного приёма",
      match f.dataPervichnogo with | some d => .rudate d | none => .s "—"),
   ("Количество визитов", .i f.kolichestvoVizitov),
   ("Следующий визит", .appts f.predstoyashchiePriyomy),
   ("Стоимость предварительных планов",
      .i ((f.kompleksnyePlany.map (·.itogo)).foldl (· + ·) 0)),
   ("Стоимость согласованных планов",
      .i ((f.soglasovannyePlany.map (·.itogo)).foldl (· + ·) 0)),
   ("Сумма оплат", .i f.obshchayaOplachennaya),
   ("Процент выполнения", .null),
   ("Стадия", .null),
   ("Текущая стадия лечения", .s f.tekushchayaStadiya),
   ("Ответственный", .null),
   ("Филиал", .s f.filial),
   ("По рекомендации", hvOfScalar f.poRekomendacii)]

/-- Ordering by key, the comparison applied by
`json.dumps(..., sort_keys=True)` (lexicographic on code points, which
is Lean's `String` order). -/
def keyLe (a b : String × HVal) : Prop := a.1 ≤ b.1

instance : DecidableRel keyLe := fun a b => inferInstanceAs (Decidable (a.1 ≤ b.1))

/-- Canonical (key-sorted) form of an association list — the shape
`json.dumps(..., sort_keys=True)` serializes. -/
def sortByKey (l : List (String × HVal)) : List (String × HVal) :=
  l.insertionSort keyLe

/-- The canonical serialization the MD5 digest is computed over
(digest abstracted by the serialized value, see the header). -/
abbrev Fingerprint := List (String × HVal)

/-- Digest of one formatted snapshot: `key_fields` in canonical
key-sorted form. -/
def fingerprint (f : Formatted) : Fingerprint :=
  sortByKey (keyFields f)

/-- `main.calculate_patient_hash`: format the snapshot, project the
tracked `key_fields`, serialize with sorted keys, digest.  An exception
escaping `format_patient_data` escapes this function too — there is no
handler in the source. -/
def calculate_patient_hash (patient_data : Snapshot) : Except String Fingerprint := do
  let formatted ← format_patient_data patient_data
  pure (fingerprint formatted)

/-- A value stored in a registry entry (`known_patients.json`).
`vdate d` is the ISO date string `str(d)`; `vhash h` is a stored digest;
`vnone` is JSON `null`. -/
inductive EVal
  | vnone
  | vdate (d : Nat)
  | vhash (h : Fingerprint)
deriving DecidableEq, Repr

/-- One registry entry: a JSON object, insertion-ordered, possibly
carrying legacy keys beside the five tracked ones. -/
abbrev Entry := List (String × EVal)

/-- The registry mapping patient identifier to entry. -/
abbrev Known := List (String × Entry)

/-- Python dict assignment `d[k] = v`: overwrite in place when the key
exists (keeping its position), else append at the end. -/
def setAL {α : Type} (l : List (String × α)) (k : String) (v : α) : List (String × α) :=
  match l with
  | [] => [(k, v)]
  | (k0, v0) :: rest => if k0 = k then (k, v) :: rest else (k0, v0) :: setAL rest k v

/-- `entry.get(k)` — Python `.get` returns `None` both for an absent key
and for a stored `null`, which this collapses to `vnone`. -/
def getE (e : Entry) (k : String) : EVal :=
  (e.lookup k).getD .vnone

/-- `current_hash != last_saved_hash` (negated): an MD5 string can only
equal another stored digest; a stored `None` or date string never
equals a digest. -/
def eqHash (h : Fingerprint) : EVal → Bool
  | .vhash h0 => h0 = h
  | _ => false

/-- Truthiness of a stored value (`None` falsy; date and digest strings
are nonempty, hence truthy). -/
def truthyE : EVal → Bool
  | .vnone => false
  | _ => true

/-- `latest_appt > last_saved_appt` — a comparison of ISO date strings,
which agrees with the numeric order on the modelled dates.  Comparison
against a stored legacy digest value is not modelled (the program never
writes one into `last_appointment_date`); it is taken as `false`. -/
def dateGtE (latest : Option Nat) (saved : EVal) : Bool :=
  match latest, saved with
  | some l, .vdate s => s < l
  | _, _ => false

/-- `max` over the parsed appointment dates (`max([...], default=None)`). -/
def maxOpt : List Nat → Option Nat
  | [] => none
  | x :: xs =>
      match maxOpt xs with
      | none => some x
      | some m => some (max x m)

/-- The `_parse` helper of `process_patient`: `strptime(s, "%Y-%m-%d")`
with every failure (absent value or non-ISO string) mapped to `None`. -/
def parseAppt (a : ApptRow) : Option Nat :=
  match a.workDateStr with
  | some (.iso d) => some d
  | _ => none

/-- `latest_appt`: maximum parsed date over the appointment rows,
`none` when no row parses. -/
def latestAppt (appts : List ApptRow) : Option Nat :=
  maxOpt (appts.filterMap parseAppt)

/-- The regeneration decision chain of `process_patient`
(`if not pdf_path.exists(): ... elif ...`), in source order. -/
def needRegen (pdfExists : Bool) (h : Fingerprint) (savedHash savedAppt : EVal)
    (latest : Option Nat) : Bool :=
  if !pdfExists then true
  else if !(eqHash h savedHash) then true
  else if savedHash = .vnone then true
  else if savedAppt = .vnone || (latest.isSome && truthyE savedAppt && dateGtE latest savedAppt)
    then true
  else false

/-- The external collaborators one run consumes, plus the wall-clock
date (`date.today()`).  `repeatPcodes` is the iteration order of the
`repeat_pcodes` set; `mainInfo` tells whether `fetch_main_info` finds
the patient; `renderOk` tells whether `build_patient_report` succeeds
(on success the PDF artifact exists afterwards). -/
structure Db where
  repeatPcodes : List String
  mainInfo : String → Bool
  primaryToday : Nat → List String
  collect : String → Except String Snapshot
  futureAppts : String → Except String (List ApptRow)
  renderOk : String → Bool
  today : Nat

/-- Observable effects of one run, in order of occurrence:
`evalP p` — `process_patient` invoked for `p`;
`render p` — `build_patient_report` invoked (successfully) for `p`;
`dateStart d` — the per-date loop begins date `d`;
`save` — `save_known_patients` invoked. -/
inductive Event
  | dateStart (d : Nat)
  | evalP (p : String)
  | render (p : String)
  | save
deriving DecidableEq, Repr

/-- `main.process_patient`: evaluate one candidate.  Returns the updated
registry, the updated set of existing PDF artifacts, and the emitted
events.  The try/except of the source is the outer `match`: any failure
of the snapshot fetch, the digest, or the appointment fetch lands in the
error branch, as does a render failure; nothing propagates. -/
def process_patient (db : Db) (pcode : String) (known : Known) (pdfs : List String)
    (targetDate : Nat) : Known × List String × List Event :=
  let pinfo : Entry := (known.lookup pcode).getD []
  let exceptBranch : Known × List String × List Event :=
    (setAL known pcode (setAL pinfo "processed_on" (.vdate targetDate)), pdfs,
      [.evalP pcode])
  match (do
      let snap ← db.collect pcode
      let h ← calculate_patient_hash snap
      let appts ← db.futureAppts pcode
      pure (h, appts) : Except String (Fingerprint × List ApptRow)) with
  | .error _ => exceptBranch
  | .ok (h, appts) =>
    let latest := latestAppt appts
    let savedAppt := getE pinfo "last_appointment_date"
    let savedHash := getE pinfo "data_hash"
    if needRegen (pdfs.contains pcode) h savedHash savedAppt latest then
      if db.renderOk pcode then
        (setAL known pcode
            [("last_appointment_date",
                match latest with | some l => .vdate l | none => .vnone),
             ("data_hash", .vhash h),
             ("last_checked", .vdate targetDate),
             ("last_updated", .vdate db.today),
             ("processed_on", .vdate targetDate)],
          if pdfs.contains pcode then pdfs else pdfs ++ [pcode],
          [.evalP pcode, .render pcode])
      else
        exceptBranch
    else
      (setAL known pcode
          (setAL (setAL pinfo "last_checked" (.vdate targetDate))
            "processed_on" (.vdate targetDate)),
        pdfs, [.evalP pcode])

/-- Mutable run state threaded through `main`: the in-memory registry,
the PDF artifacts on disk, the `all_processed_pcodes` accumulator and
the event trace. -/
structure St where
  known : Known
  pdfs : List String
  processed : List String
  trace : List Event
deriving Repr

/-- `if pcode not in all_processed_pcodes: all_processed_pcodes.append(pcode)`. -/
def appendIfAbsent (l : List String) (x : String) : List String :=
  if x ∈ l then l else l ++ [x]

/-- `main.process_and_register_patient`: evaluate, then register in the
export accumulator unless already present. -/
def procReg (db : Db) (pcode : String) (targetDate : Nat) (st : St) : St :=
  let r := process_patient db pcode st.known st.pdfs targetDate
  { known := r.1, pdfs := r.2.1,
    processed := appendIfAbsent st.processed pcode,
    trace := st.trace ++ r.2.2 }

/-- Body of the pre-scan over `list(known.items())` in `main` (lines
197-224): recompute the digest of every known patient; on a changed
digest, `process_patient` for the first date of the range, then
hand-patch `data_hash` / `last_checked` / `last_updated` and register;
on an unchanged digest, only advance `last_checked`; on any exception,
`continue` without mutation. -/
def preScanStep (db : Db) (d0 : Nat) (st : St) (pcode : String) : St :=
  let pdata : Entry := (st.known.lookup pcode).getD []
  match (do
      let snap ← db.collect pcode
      calculate_patient_hash snap : Except String Fingerprint) with
  | .error _ => st
  | .ok h =>
    if eqHash h (getE pdata "data_hash") then
      { st with known := setAL st.known pcode (setAL pdata "last_checked" (.vdate d0)) }
    else
      let r := process_patient db pcode st.known st.pdfs d0
      let e1 := (r.1.lookup pcode).getD []
      let e2 := setAL (setAL (setAL e1 "data_hash" (.vhash h))
        "last_checked" (.vdate d0)) "last_updated" (.vdate db.today)
      { known := setAL r.1 pcode e2, pdfs := r.2.1,
        processed := appendIfAbsent st.processed pcode,
        trace := st.trace ++ r.2.2 }

/-- The three-field entry inserted for a first-sighted candidate
(`{"last_checked": ..., "last_appointment_date": None, "data_hash": None}`). -/
def freshEntry (d : Nat) : Entry :=
  [("last_checked", .vdate d), ("last_appointment_date", .vnone), ("data_hash", .vnone)]

/-- Body of the repeat-curated-patient loop (runs for every date,
filter or not): skip candidates absent from the clinical source, insert
first-sighted ones, then evaluate and register (`is_new=False`). -/
def repeatStep (db : Db) (d : Nat) (st : St) (pcode : String) : St :=
  if db.mainInfo pcode then
    let st1 :=
      if (st.known.lookup pcode).isSome then st
      else { st with known := setAL st.known pcode (freshEntry d) }
    procReg db pcode d st1
  else st

/-- Body of the explicit-filter loop (`is_new=True`). -/
def filterStep (db : Db) (d : Nat) (st : St) (pcode : String) : St :=
  if db.mainInfo pcode then
    let st1 :=
      if (st.known.lookup pcode).isSome then st
      else { st with known := setAL st.known pcode (freshEntry d) }
    procReg db pcode d st1
  else st

/-- Body of the daily-discovery loop: parse the stored `last_checked`
(any unparseable or absent value becomes `None`), and evaluate only when
it is absent or strictly before the target date. -/
def dailyStep (db : Db) (d : Nat) (st : St) (pcode : String) : St :=
  let lastChecked : Option Nat :=
    match getE ((st.known.lookup pcode).getD []) "last_checked" with
    | .vdate n => some n
    | _ => none
  let go : Bool := match lastChecked with | none => true | some lc => lc < d
  if go then
    let st1 :=
      if (st.known.lookup pcode).isSome then st
      else { st with known := setAL st.known pcode (freshEntry d) }
    procReg db pcode d st1
  else st

/-- One iteration of the per-date loop of `main` (lines 226-288):
repeat-curated candidates first; then the explicit filter if one was
given, else daily discovery. -/
def dateStep (db : Db) (filterPcodes : List String) (st : St) (d : Nat) : St :=
  let st := { st with trace := st.trace ++ [.dateStart d] }
  let st := db.repeatPcodes.foldl (repeatStep db d) st
  let st := if filterPcodes.isEmpty then st else filterPcodes.foldl (filterStep db d) st
  let st := if filterPcodes.isEmpty then (db.primaryToday d).foldl (dailyStep db d) st else st
  st

/-- `main.main`: load the registry (`known0` — file I/O abstracted as a
parameter, like the initial PDF directory `pdfs0`), pre-scan all known
patients against the first date of the range, walk the date range, and
only then — after the CSV export, which touches no modelled state —
persist the registry once (`save_known_patients`, line 301).  The run
entry point requires a nonempty range (`date_range[0]` would raise
otherwise); `headD` totalizes that. -/
def runMain (db : Db) (known0 : Known) (pdfs0 : List String) (dateRange : List Nat)
    (filterPcodes : List String) : St :=
  let st0 : St := ⟨known0, pdfs0, [], []⟩
  let d0 := dateRange.headD 0
  let st1 := (known0.map Prod.fst).foldl (preScanStep db d0) st0
  let st2 := dateRange.foldl (dateStep db filterPcodes) st1
  { st2 with trace := st2.trace ++ [.save] }

/-- A spreadsheet cell value.  `d v` is a `datetime`/`date` object for
the date `v`; `dstr v` is a string in one of the accepted date formats
denoting the date `v` (the split makes `normalize_date` a total case
split, as with `DStr`); `fml` is formula text.  `str()` renderings of
date objects are modelled by markers injective in the date — they are
never equal to a patient name. -/
inductive CVal
  | empty
  | s (v : String)
  | n (v : Int)
  | fml (v : String)
  | d (v : Nat)
  | dstr (v : Nat)
deriving DecidableEq, Repr

/-- `str(value)` of a non-null cell value. -/
def cvStr : CVal → String
  | .empty => "None"
  | .s v => v
  | .n v => toString v
  | .fml v => v
  | .d v => "PYDATE-" ++ toString v
  | .dstr v => "PYDATESTR-" ++ toString v

/-- `str(value or "")`: falsy cell values (`None`, `""`, `0`) render as
the empty string. -/
def cvStrOr : CVal → String
  | .empty => ""
  | .s v => v
  | .n v => if v = 0 then "" else toString v
  | .fml v => v
  | .d v => "PYDATE-" ++ toString v
  | .dstr v => "PYDATESTR-" ++ toString v

/-- `str.lower()` restricted to the alphabets that occur in this
program's labels: ASCII and Cyrillic (`А`–`Я` and `Ё`). -/
def lowerChar (c : Char) : Char :=
  if c ≥ 'A' ∧ c ≤ 'Z' then Char.ofNat (c.toNat + 32)
  else if c = 'Ё' then 'ё'
  else if c ≥ 'А' ∧ c ≤ 'Я' then Char.ofNat (c.toNat + 32)
  else c

/-- Python `str.lower` (see `lowerChar`). -/
def pyLower (s : String) : String := ⟨s.data.map lowerChar⟩

/-- One sheet row: the list of cell values, sparse tail omitted. -/
abbrev Row := List CVal

/-- One worksheet: row 1 is the header. -/
abbrev Sheet := List Row

/-- `csv_exporter.REPORT_HEADERS`. -/
def reportHeaders : List String :=
  ["ФИО", "Возраст пациента", "ФИО консультанта пациента", "Тип пациента 1",
   "Тип пациента 2", "ФИО доктора, проводившего первичный прием", "Дата первого визита",
   "Количество визитов в клинику",
   "Дата следующего приема и ФИО доктора, к кому пациент записан на прием",
   "Стоимость всех предварительных планов, руб.",
   "Стоимость всех согласованных планов, руб.",
   "Сумма оплаченных денег пациентом в клинику, руб.",
   "Процент выполнения плана, %",
   "Текущая стадия лечения", "Ответственный", "Филиал", "По рекомендации"]

/-- The header row written when the report file does not exist yet
(`["№ п/п"] + REPORT_HEADERS`). -/
def headerRow : Row := .s "№ п/п" :: reportHeaders.map .s

/-- The sentinel that marks the start of the previously generated
breakdown/summary blocks: column B starting with
`"комплексный пациент"` after strip/lower. -/
def sentinelRow (row : Row) : Bool :=
  strStartsWith (pyLower (pyStrip (cvStrOr (row.getD 1 .empty)))) "комплексный пациент"

/-- `c.value is None or str(c.value).strip() == ""` for one cell. -/
def cellBlank : CVal → Bool
  | .empty => true
  | c => pyStrip (cvStr c) = ""

/-- A fully blank row. -/
def isBlankRow (row : Row) : Bool := row.all cellBlank

/-- Delete trailing fully-blank rows, never deleting row 1
(`while ws.max_row > 1: ...`). -/
def dropTrailingBlanks : Sheet → Sheet
  | [] => []
  | h :: t => h :: (t.reverse.dropWhile isBlankRow).reverse

/-- The strip phase of `append_to_management_report` (lines 338-349):
delete everything from the first sentinel row to the end, then delete
trailing blank rows. -/
def stripTotals (s : Sheet) : Sheet :=
  dropTrailingBlanks (s.takeWhile (fun row => !sentinelRow row))

/-- One incoming display row, by the keys `append_to_management_report`
reads.  `fio` is the `Название лида` value (a string — `.strip()` is
applied to it); the remaining fields are raw cell values in
`data_values` order. -/
structure InRow where
  fio : String
  vozrast : CVal
  konsultant : CVal
  tip1 : CVal
  tip2 : CVal
  doktor : CVal
  firstVisit : CVal
  vizity : CVal
  nextAppt : CVal
  stPredv : CVal
  stSogl : CVal
  summa : CVal
  procent : CVal
  stadiya : CVal
  otvetstvennyy : CVal
  filial : CVal
  rekomend : CVal
deriving DecidableEq, Repr

/-- `csv_exporter.normalize_date`: date objects pass through, datetimes
drop to dates, strings in an accepted format parse, anything else
(including falsy values) is `None`. -/
def normalize_date : CVal → Option Nat
  | .d v => some v
  | .dstr v => some v
  | _ => none

/-- `first_visit_fmt`: keep date objects, otherwise `normalize_date`
(writing `None` leaves the cell empty). -/
def firstVisitFmt (r : InRow) : CVal :=
  match r.firstVisit with
  | .d v => .d v
  | v => match normalize_date v with
         | some x => .d x
         | none => .empty

/-- `num_formula = f"=SUBTOTAL(3,$B$2:B{row_idx})"`. -/
def numFormula (excelRow : Nat) : String :=
  "=SUBTOTAL(3,$B$2:B" ++ toString excelRow ++ ")"

/-- The `data_values` list written into row `excelRow` for one incoming
row (source lines 385-404). -/
def dataValues (r : InRow) (excelRow : Nat) : Row :=
  [.fml (numFormula excelRow),
   .s (pyStrip r.fio),
   r.vozrast, r.konsultant, r.tip1, r.tip2, r.doktor,
   firstVisitFmt r,
   r.vizity, r.nextAppt, r.stPredv, r.stSogl, r.summa, r.procent,
   r.stadiya, r.otvetstvennyy, r.filial, r.rekomend]

/-- Write a list of cell values into a row starting at column 1,
keeping any cells beyond them (`ws.cell(row, col, value)` per column). -/
def writeRow (old : Row) (vals : Row) : Row :=
  vals ++ old.drop vals.length

/-- `str(cell or "").strip() == fio` for the cells of column B. -/
def rowMatchesFio (row : Row) (f : String) : Bool :=
  pyStrip (cvStrOr (row.getD 1 .empty)) = f

/-- First index (0-based) of a row matching the identity key. -/
def findRowIdx (rows : List Row) (f : String) : Option Nat :=
  match rows with
  | [] => none
  | row :: rest =>
      if rowMatchesFio row f then some 0
      else (findRowIdx rest f).map (· + 1)

/-- The `existing_row` search of the merge loop (source lines 363-367):
scan rows 2..max_row for a column-B match; result is the 0-based sheet
index. -/
def findFio (s : Sheet) (f : String) : Option Nat :=
  (findRowIdx (s.drop 1) f).map (· + 1)

/-- One iteration of the merge loop (source lines 356-409): skip rows
with an empty identity, overwrite the matching row in place, or append
a fresh row at the end; the per-row ordinal formula references the row's
own (1-based) position. -/
def mergeStep (s : Sheet) (r : InRow) : Sheet :=
  let f := pyStrip r.fio
  if f = "" then s
  else
    match findFio s f with
    | some i => s.set i (writeRow (s.getD i []) (dataValues r (i + 1)))
    | none =>
        let s1 := s ++ [[]]
        s1.set (s1.length - 1) (writeRow [] (dataValues r s1.length))

/-- The full merge loop over the incoming rows. -/
def mergeRows (s : Sheet) (rows : List InRow) : Sheet :=
  rows.foldl mergeStep s

/-- `openpyxl.utils.get_column_letter`, for the single-letter columns
this report uses (the sheet has 18 columns). -/
def colLetter (n : Nat) : String :=
  if 1 ≤ n ∧ n ≤ 26 then String.singleton (Char.ofNat (64 + n)) else "?"

/-- `ws.max_column` (at least 1). -/
def maxCols (s : Sheet) : Nat :=
  s.foldl (fun m r => max m r.length) 1

/-- A cell range `{col}{first}:{col}{last}`. -/
def rng (col : Nat) (firstRow lastRow : Nat) : String :=
  colLetter col ++ toString firstRow ++ ":" ++ colLetter col ++ toString lastRow

/-- The conditional-subtotal counting formula of the breakdown blocks. -/
def countFormula (col : Nat) (lastRow : Nat) (label : String) : String :=
  let r := rng col 2 lastRow
  let fc := colLetter col ++ "2"
  "=SUMPRODUCT((SUBTOTAL(103,OFFSET(" ++ fc ++ ",ROW(" ++ r ++ ")-ROW(" ++ fc ++
    "),0)))*(" ++ r ++ "=\"" ++ label ++ "\"))"

/-- The special disjunctive formula for the `Готовность к реализации`
row of the second block. -/
def readinessFormula (lastRow : Nat) : String :=
  let r := rng 6 2 lastRow
  let fc := colLetter 6 ++ "2"
  "=SUMPRODUCT((SUBTOTAL(103,OFFSET(" ++ fc ++ ",ROW(" ++ r ++ ")-ROW(" ++ fc ++
    "),0))>0)*(((" ++ r ++ "=\"Готов к реализации плана лечения\")+(" ++ r ++
    "=\"Готов по специализации\"))))"

/-- The first (orange, `Тип пациента 2`) breakdown block. -/
def blockType1Rows (lastRow : Nat) : List Row :=
  ["Комплексный пациент", "Не комплексный пациент", "Нуждается в наркозе",
   "Статус не установлен"].map
    (fun label => [.empty, .s label, .fml (countFormula 5 lastRow label)])

/-- The second (yellow) breakdown block; `Санирован` counts over column
O, `Готовность` uses the disjunctive formula, the rest count over
column F. -/
def blockType2Rows (lastRow : Nat) : List Row :=
  ["Санирован", "Отказ от лечения",
   "Готовность к реализации (Готов к реализации + готов по специализации)",
   "Думает", "Статус не установлен"].map
    (fun label =>
      if strStartsWith label "Санирован" then
        [.empty, .s label, .fml (countFormula 15 lastRow label)]
      else if strStartsWith label "Готовность" then
        [.empty, .s label, .fml (readinessFormula lastRow)]
      else
        [.empty, .s label, .fml (countFormula 6 lastRow label)])

/-- The summary block (source lines 566-603); `titleRow` is the 1-based
row of its bold title. -/
def summaryRows (lastRow titleRow : Nat) : List Row :=
  let rngTitle := rng 2 2 lastRow
  let rngNext := rng 10 2 lastRow
  let firstCell := colLetter 10 ++ "2"
  let rngPaid := rng 13 2 lastRow
  [[.empty, .s "Итоговые показатели по текущему фильтру"],
   [.empty, .s "Количество пациентов", .fml ("=SUBTOTAL(103," ++ rngTitle ++ ")")],
   [.empty, .s "Записались повторно",
      .fml ("=SUMPRODUCT((SUBTOTAL(103,OFFSET(" ++ firstCell ++ ",ROW(" ++ rngNext ++
        ")-MIN(ROW(" ++ rngNext ++ ")),0)))*((" ++ rngNext ++ "<>\"\" )*(" ++ rngNext ++
        "<>\"—\")))")],
   [.empty, .s "Конверсия, %",
      .fml ("=IFERROR((C" ++ toString (titleRow + 2) ++ "/C" ++ toString (titleRow + 1) ++
        ")*100,0)")],
   [.empty, .s "Общая сумма оплат, руб.", .fml ("=SUBTOTAL(9," ++ rngPaid ++ ")")],
   [.empty, .s "Средняя стоимость лечения, руб.",
      .fml ("=IFERROR(SUBTOTAL(9," ++ rngPaid ++ ")/SUBTOTAL(103," ++ rngTitle ++ "),0)")]]

/-- The block-appending phase (source lines 466-603): one blank
separator row (`[None] * max_column`), the two breakdown blocks with an
implicit empty row between them, an appended empty row, and the summary
block.  With `n` data rows on the sheet, the separator sits at row
`n + 1`, the first block at rows `n + 2 .. n + 5`, the second at
`n + 7 .. n + 11`, the appended blank at `n + 12`, and the summary
title (`start = max_row + 13` at line 577, counted from the pre-block
`max_row`) at row `n + 13`.  Fonts, fills, widths, number formats,
auto-filter and freeze panes change no cell values and are not
modelled. -/
def appendBlocks (s : Sheet) : Sheet :=
  let n := s.length
  let ncols := maxCols s
  s ++ [List.replicate ncols .empty]
    ++ blockType1Rows n
    ++ [[]]
    ++ blockType2Rows n
    ++ [[]]
    ++ summaryRows n (n + 13)

/-- `csv_exporter.append_to_management_report`: load or initialize,
strip previous blocks, merge the incoming rows, re-append the blocks.
(Saving overwrites the document in place; file I/O is the
`Option Sheet` argument and the result.) -/
def mgmtMerge (existing : Option Sheet) (rows : List InRow) : Sheet :=
  let ws := match existing with | some s => s | none => [headerRow]
  appendBlocks (mergeRows (stripTotals ws) rows)

/-- The data-row region of a document: what remains between the header
and the generated blocks. -/
def dataRegion (s : Sheet) : List Row :=
  (stripTotals s).drop 1

/-- Number of data rows carrying identity key `f`. -/
def countFio (s : Sheet) (f : String) : Nat :=
  ((s.drop 1).filter (fun row => rowMatchesFio row f)).length

section AssocLemmas

variable {β : Type}

theorem lookup_cons_unfold (a k : String) (b : β) (es : List (String × β)) :
    List.lookup a ((k, b) :: es) = if a = k then some b else List.lookup a es := by
  by_cases h : a = k
  · subst h; simp [List.lookup]
  · have hb : (a == k) = false := beq_eq_false_iff_ne.mpr h
    simp [List.lookup, hb, h]

theorem lookup_setAL_self (l : List (String × β)) (k : String) (v : β) :
    (setAL l k v).lookup k = some v := by
  induction l with
  | nil => simp [setAL, lookup_cons_unfold]
  | cons hd tl ih =>
      obtain ⟨k0, v0⟩ := hd
      by_cases h : k0 = k
      · subst h; simp [setAL, lookup_cons_unfold]
      · have hne : k ≠ k0 := fun hc => absurd hc.symm h
        simp [setAL, h, lookup_cons_unfold, hne, ih]

theorem lookup_setAL_ne (l : List (String × β)) (k k' : String) (v : β) (h : k' ≠ k) :
    (setAL l k v).lookup k' = l.lookup k' := by
  induction l with
  | nil => simp [setAL, lookup_cons_unfold, h]
  | cons hd tl ih =>
      obtain ⟨k0, v0⟩ := hd
      by_cases h0 : k0 = k
      · subst h0; simp [setAL, lookup_cons_unfold, h]
      · simp [setAL, h0, lookup_cons_unfold, ih]

theorem lookup_perm_of_nodupKeys {l₁ l₂ : List (String × β)} (p : l₁.Perm l₂)
    (nd : (l₁.map Prod.fst).Nodup) (k : String) :
    l₁.lookup k = l₂.lookup k := by
  induction p with
  | nil => rfl
  | @cons x t₁ t₂ p ih =>
      obtain ⟨kx, vx⟩ := x
      have nd' : (t₁.map Prod.fst).Nodup := by
        simpa using nd.of_cons
      rw [lookup_cons_unfold, lookup_cons_unfold, ih nd']
  | @swap x y l =>
      obtain ⟨kx, vx⟩ := x
      obtain ⟨ky, vy⟩ := y
      have hne : ky ≠ kx := by
        have := nd
        simp only [List.map_cons, List.nodup_cons, List.mem_cons] at this
        exact fun hc => this.1 (Or.inl hc)
      rw [lookup_cons_unfold, lookup_cons_unfold, lookup_cons_unfold, lookup_cons_unfold]
      by_cases h1 : k = ky
      · subst h1
        simp [hne]
      · simp [h1]
  | @trans l₁ l₂ l₃ p₁ p₂ ih₁ ih₂ =>
      have nd₂ : (l₂.map Prod.fst).Nodup := ((p₁.map Prod.fst)).nodup nd
      rw [ih₁ nd, ih₂ nd₂]

end AssocLemmas

section SortLemmas

instance : IsTotal (String × HVal) keyLe := ⟨fun a b => le_total a.1 b.1⟩

instance : IsTrans (String × HVal) keyLe := ⟨fun _ _ _ h₁ h₂ => le_trans h₁ h₂⟩

/-- Strict by-key order, used to see that a key-sorted list with
pairwise-distinct keys is uniquely determined. -/
def keyLt (a b : String × HVal) : Prop := a.1 < b.1

instance : IsAntisymm (String × HVal) keyLt :=
  ⟨fun _ _ h₁ h₂ => absurd h₁ (lt_asymm h₂)⟩

theorem sorted_keyLt_sortByKey (l : List (String × HVal))
    (nd : (l.map Prod.fst).Nodup) : (sortByKey l).Sorted keyLt := by
  have hs : (sortByKey l).Sorted keyLe := List.sorted_insertionSort keyLe l
  have hperm : (sortByKey l).Perm l := List.perm_insertionSort keyLe l
  have ndS : ((sortByKey l).map Prod.fst).Nodup := ((hperm.map Prod.fst).symm).nodup nd
  have hne : (sortByKey l).Pairwise (fun a b => a.1 ≠ b.1) := by
    exact (List.pairwise_map).mp ndS
  exact (hs.and hne).imp (fun h => lt_of_le_of_ne h.1 h.2)

theorem sortByKey_perm_invariant {l₁ l₂ : List (String × HVal)} (p : l₁.Perm l₂)
    (nd : (l₁.map Prod.fst).Nodup) : sortByKey l₁ = sortByKey l₂ := by
  have nd₂ : (l₂.map Prod.fst).Nodup := (p.map Prod.fst).nodup nd
  have hp : (sortByKey l₁).Perm (sortByKey l₂) :=
    ((List.perm_insertionSort keyLe l₁).trans p).trans
      (List.perm_insertionSort keyLe l₂).symm
  exact List.eq_of_perm_of_sorted hp (sorted_keyLt_sortByKey l₁ nd)
    (sorted_keyLt_sortByKey l₂ nd₂)

end SortLemmas

section FingerprintLemmas

theorem nodup_keyFields (f : Formatted) : ((keyFields f).map Prod.fst).Nodup := by
  have h : (keyFields f).map Prod.fst =
      ["ФИО", "Фамилия", "Имя", "Отчество", "Возраст пациента", "ФИО консультанта",
       "Тип пациента 1", "Тип пациента 2", "Доктор первичного приёма",
       "Дата первичного приёма", "Количество визитов", "Следующий визит",
       "Стоимость предварительных планов", "Стоимость согласованных планов",
       "Сумма оплат", "Процент выполнения", "Стадия", "Текущая стадия лечения",
       "Ответственный", "Филиал", "По рекомендации"] := rfl
  rw [h]
  decide

theorem lookup_keyFields_canonical (f : Formatted) (k : String) :
    (keyFields f).lookup k = (fingerprint f).lookup k :=
  lookup_perm_of_nodupKeys (List.perm_insertionSort keyLe (keyFields f)).symm
    (nodup_keyFields f) k

theorem keyFields_eq_of_lookup_eq {f g : Formatted}
    (lf : ∀ k, (keyFields f).lookup k = (keyFields g).lookup k) :
    keyFields f = keyFields g := by
  have e01 := lf "ФИО"
  have e02 := lf "Фамилия"
  have e03 := lf "Имя"
  have e04 := lf "Отчество"
  have e06 := lf "ФИО консультанта"
  have e07 := lf "Тип пациента 1"
  have e08 := lf "Тип пациента 2"
  have e09 := lf "Доктор первичного приёма"
  have e10 := lf "Дата первичного приёма"
  have e11 := lf "Количество визитов"
  have e12 := lf "Следующий визит"
  have e13 := lf "Стоимость предварительных планов"
  have e14 := lf "Стоимость согласованных планов"
  have e15 := lf "Сумма оплат"
  have e18 := lf "Текущая стадия лечения"
  have e20 := lf "Филиал"
  have e21 := lf "По рекомендации"
  simp [keyFields, lookup_cons_unfold] at e01 e02 e03 e04 e06 e07 e08 e09 e10 e11 e12 e13 e14 e15 e18 e20 e21
  simp [keyFields, e01, e02, e03, e04, e06, e07, e08, e09, e10, e11, e12, e13, e14,
    e15, e18, e20, e21]

theorem fingerprint_inj {f g : Formatted} (h : fingerprint f = fingerprint g) :
    keyFields f = keyFields g := by
  apply keyFields_eq_of_lookup_eq
  intro k
  rw [lookup_keyFields_canonical f k, lookup_keyFields_canonical g k, h]

theorem calc_hash_of_format {x : Snapshot} {fx : Formatted}
    (hx : format_patient_data x = .ok fx) :
    calculate_patient_hash x = .ok (fingerprint fx) := by
  simp [calculate_patient_hash, hx]

end FingerprintLemmas

section OrchestratorLemmas

theorem except_bind_ok {ε α β : Type} (a : α) (f : α → Except ε β) :
    (Except.ok a >>= f) = f a := rfl

theorem except_bind_error {ε α β : Type} (e : ε) (f : α → Except ε β) :
    ((Except.error e : Except ε α) >>= f) = .error e := rfl

theorem maxOpt_mem : ∀ {l : List Nat} {m : Nat}, maxOpt l = some m → m ∈ l := by
  intro l
  induction l with
  | nil => intro m h; simp [maxOpt] at h
  | cons x xs ih =>
      intro m h
      simp only [maxOpt] at h
      cases hx : maxOpt xs with
      | none =>
          rw [hx] at h
          simp only [Option.some.injEq] at h
          simp [h.symm]
      | some m0 =>
          rw [hx] at h
          simp only [Option.some.injEq] at h
          rcases max_choice x m0 with hc | hc
          · rw [hc] at h; simp [h.symm]
          · rw [hc] at h
            exact List.mem_cons_of_mem x (ih (h ▸ hx))

/-- The events emitted by a single `process_patient` invocation. -/
theorem process_patient_trace_shape (db : Db) (pcode : String) (known : Known)
    (pdfs : List String) (d : Nat) :
    (process_patient db pcode known pdfs d).2.2 = [.evalP pcode] ∨
    (process_patient db pcode known pdfs d).2.2 = [.evalP pcode, .render pcode] := by
  simp only [process_patient]
  split
  · left; rfl
  · split
    · split
      · right; rfl
      · left; rfl
    · left; rfl

theorem foldl_invariant {σ α : Type} (P : σ → Prop) (f : σ → α → σ)
    (hf : ∀ s a, P s → P (f s a)) :
    ∀ (l : List α) (s : σ), P s → P (l.foldl f s) := by
  intro l
  induction l with
  | nil => intro s h; exact h
  | cons x xs ih => intro s h; exact ih _ (hf s x h)

/-- `save` is never emitted by the per-candidate machinery. -/
theorem noSave_procReg (db : Db) (pcode : String) (d : Nat) (st : St)
    (h : Event.save ∉ st.trace) : Event.save ∉ (procReg db pcode d st).trace := by
  simp only [procReg, List.mem_append]
  rintro (hc | hc)
  · exact h hc
  · rcases process_patient_trace_shape db pcode st.known st.pdfs d with hs | hs <;>
      rw [hs] at hc <;> simp at hc

theorem noSave_repeatStep (db : Db) (d : Nat) (st : St) (pcode : String)
    (h : Event.save ∉ st.trace) : Event.save ∉ (repeatStep db d st pcode).trace := by
  simp only [repeatStep]
  split
  · split <;> exact noSave_procReg _ _ _ _ h
  · exact h

theorem noSave_filterStep (db : Db) (d : Nat) (st : St) (pcode : String)
    (h : Event.save ∉ st.trace) : Event.save ∉ (filterStep db d st pcode).trace := by
  simp only [filterStep]
  split
  · split <;> exact noSave_procReg _ _ _ _ h
  · exact h

theorem noSave_dailyStep (db : Db) (d : Nat) (st : St) (pcode : String)
    (h : Event.save ∉ st.trace) : Event.save ∉ (dailyStep db d st pcode).trace := by
  simp only [dailyStep]
  split
  · split <;> exact noSave_procReg _ _ _ _ h
  · exact h

theorem noSave_preScanStep (db : Db) (d0 : Nat) (st : St) (pcode : String)
    (h : Event.save ∉ st.trace) : Event.save ∉ (preScanStep db d0 st pcode).trace := by
  simp only [preScanStep]
  split
  · exact h
  · split
    · exact h
    · simp only [List.mem_append]
      rintro (hc | hc)
      · exact h hc
      · rcases process_patient_trace_shape db pcode st.known st.pdfs d0 with hs | hs <;>
          rw [hs] at hc <;> simp at hc

theorem noSave_dateStep (db : Db) (filterPcodes : List String) (st : St) (d : Nat)
    (h : Event.save ∉ st.trace) : Event.save ∉ (dateStep db filterPcodes st d).trace := by
  simp only [dateStep]
  have h0 : Event.save ∉ ({ st with trace := st.trace ++ [.dateStart d] } : St).trace := by
    simp only [List.mem_append]
    rintro (hc | hc)
    · exact h hc
    · simp at hc
  have h1 := foldl_invariant (fun s => Event.save ∉ s.trace) (repeatStep db d)
    (fun s a => noSave_repeatStep db d s a) db.repeatPcodes _ h0
  by_cases hf : filterPcodes.isEmpty
  · simp only [if_pos hf]
    exact foldl_invariant (fun s => Event.save ∉ s.trace) (dailyStep db d)
      (fun s a => noSave_dailyStep db d s a) _ _ h1
  · simp only [if_neg hf]
    exact foldl_invariant (fun s => Event.save ∉ s.trace) (filterStep db d)
      (fun s a => noSave_filterStep db d s a) filterPcodes _ h1

end OrchestratorLemmas

section ProcessedNodup

theorem nodup_appendIfAbsent (l : List String) (x : String) (h : l.Nodup) :
    (appendIfAbsent l x).Nodup := by
  unfold appendIfAbsent
  split
  · exact h
  · next hx => simp [List.nodup_append, h, hx]

theorem nodupP_procReg (db : Db) (pcode : String) (d : Nat) (st : St)
    (h : st.processed.Nodup) : (procReg db pcode d st).processed.Nodup :=
  nodup_appendIfAbsent _ _ h

theorem nodupP_repeatStep (db : Db) (d : Nat) (st : St) (pcode : String)
    (h : st.processed.Nodup) : (repeatStep db d st pcode).processed.Nodup := by
  simp only [repeatStep]
  split
  · split <;> exact nodupP_procReg _ _ _ _ h
  · exact h

theorem nodupP_filterStep (db : Db) (d : Nat) (st : St) (pcode : String)
    (h : st.processed.Nodup) : (filterStep db d st pcode).processed.Nodup := by
  simp only [filterStep]
  split
  · split <;> exact nodupP_procReg _ _ _ _ h
  · exact h

theorem nodupP_dailyStep (db : Db) (d : Nat) (st : St) (pcode : String)
    (h : st.processed.Nodup) : (dailyStep db d st pcode).processed.Nodup := by
  simp only [dailyStep]
  split
  · split <;> exact nodupP_procReg _ _ _ _ h
  · exact h

theorem nodupP_preScanStep (db : Db) (d0 : Nat) (st : St) (pcode : String)
    (h : st.processed.Nodup) : (preScanStep db d0 st pcode).processed.Nodup := by
  simp only [preScanStep]
  split
  · exact h
  · split
    · exact h
    · exact nodup_appendIfAbsent _ _ h

theorem nodupP_dateStep (db : Db) (filterPcodes : List String) (st : St) (d : Nat)
    (h : st.processed.Nodup) : (dateStep db filterPcodes st d).processed.Nodup := by
  simp only [dateStep]
  have h1 := foldl_invariant (fun s => s.processed.Nodup) (repeatStep db d)
    (fun s a => nodupP_repeatStep db d s a) db.repeatPcodes
    { st with trace := st.trace ++ [.dateStart d] } h
  by_cases hf : filterPcodes.isEmpty
  · simp only [if_pos hf]
    exact foldl_invariant (fun s => s.processed.Nodup) (dailyStep db d)
      (fun s a => nodupP_dailyStep db d s a) _ _ h1
  · simp only [if_neg hf]
    exact foldl_invariant (fun s => s.processed.Nodup) (filterStep db d)
      (fun s a => nodupP_filterStep db d s a) filterPcodes _ h1

end ProcessedNodup

/-- A minimal snapshot whose formatting succeeds (no rows, no plans). -/
def sampleSnap : Snapshot :=
  { info := none, lastObslnum := none, params := [], compositePlan := [],
    currentStage := none, complexPlans := [], approvedPlans := [],
    approvedPlansPaid := 0, futureAppointments := [] }

/-- `sampleSnap` with a different tracked field (`current_stage`). -/
def sampleSnapB : Snapshot :=
  { sampleSnap with currentStage := some "Думает" }

/-- External collaborators for a run in which the clinical source is
down: every snapshot fetch raises.  One repeat-curated patient `p`. -/
def dbDown : Db :=
  { repeatPcodes := ["p"], mainInfo := fun _ => true, primaryToday := fun _ => [],
    collect := fun _ => .error "db unavailable", futureAppts := fun _ => .ok [],
    renderOk := fun _ => true, today := 9 }

/-- Healthy collaborators: every snapshot fetch yields `sampleSnap`, no
repeat-curated patients, only the pcode `x` exists. -/
def dbHealthy : Db :=
  { repeatPcodes := [], mainInfo := fun p => p = "x", primaryToday := fun _ => [],
    collect := fun _ => .ok sampleSnap, futureAppts := fun _ => .ok [],
    renderOk := fun _ => true, today := 9 }

/-- **C1, counterexample.**  The claim says the registry is persisted
after completing each date of a multi-date run, before the next date
begins.  In the two-date run below, date `0` is fully processed (its
candidate `p` is evaluated) and date `1` begins, yet no `save` occurs
anywhere before the `dateStart 1` event: the only `save` of a run is
the one at the very end of `main` (line 301). -/
theorem C1_checkpoint_per_date_counterexample :
    ((runMain dbDown [] [] [0, 1] []).trace.takeWhile
        (fun e => e != Event.dateStart 1)).contains Event.save = false ∧
    (runMain dbDown [] [] [0, 1] []).trace.contains (Event.dateStart 1) = true ∧
    ((runMain dbDown [] [] [0, 1] []).trace.takeWhile
        (fun e => e != Event.dateStart 1)).contains (Event.evalP "p") = true := by
  decide

/-- **C1, amended.**  `save_known_patients` is invoked exactly once per
run, after every date of the range has been processed (and after the
CSV export): the trace of every run is a save-free prefix followed by a
single final `save`.  A crash mid-run therefore loses the whole run's
registry updates, not just the in-progress date's. -/
theorem C1_save_once_at_end (db : Db) (known0 : Known) (pdfs0 : List String)
    (dateRange : List Nat) (filterPcodes : List String) :
    ∃ t, (runMain db known0 pdfs0 dateRange filterPcodes).trace = t ++ [Event.save] ∧
      Event.save ∉ t := by
  unfold runMain
  refine ⟨_, rfl, ?_⟩
  have hpre := foldl_invariant (fun s => Event.save ∉ s.trace)
    (preScanStep db (dateRange.headD 0))
    (fun s a => noSave_preScanStep db (dateRange.headD 0) s a)
    (known0.map Prod.fst) ⟨known0, pdfs0, [], []⟩ (by simp)
  exact foldl_invariant (fun s => Event.save ∉ s.trace) (dateStep db filterPcodes)
    (fun s a => noSave_dateStep db filterPcodes s a) dateRange _ hpre

/-- **C2, counterexample.**  The claim says every identifier is
evaluated at most once per run and that a candidate touched on an
earlier date is skipped on later dates.  In the two-date run below the
repeat-curated patient `p` is evaluated once per date — twice in one
run: `process_and_register_patient` never consults
`all_processed_pcodes` before evaluating. -/
theorem C2_at_most_once_eval_counterexample :
    ((runMain dbDown [] [] [0, 1] []).trace.count (Event.evalP "p")) = 2 := by
  decide

/-- **C2, amended.**  Deduplication applies only to the run's export
accumulator: `all_processed_pcodes` contains each identifier at most
once (the guarded append of `process_and_register_patient` and of the
pre-scan), while evaluation itself is not memoized — a candidate may be
re-evaluated on later dates of the same run.  (An identifier can still
not be evaluated under both the explicit filter and daily discovery on
one date, because daily discovery only runs when no filter is given.) -/
theorem C2_export_accumulator_nodup (db : Db) (known0 : Known) (pdfs0 : List String)
    (dateRange : List Nat) (filterPcodes : List String) :
    (runMain db known0 pdfs0 dateRange filterPcodes).processed.Nodup := by
  unfold runMain
  have hpre := foldl_invariant (fun s => s.processed.Nodup)
    (preScanStep db (dateRange.headD 0))
    (fun s a => nodupP_preScanStep db (dateRange.headD 0) s a)
    (known0.map Prod.fst) ⟨known0, pdfs0, [], []⟩ (by simp)
  exact foldl_invariant (fun s => s.processed.Nodup) (dateStep db filterPcodes)
    (fun s a => nodupP_dateStep db filterPcodes s a) dateRange _ hpre

/-- **C4, counterexample.**  The claim says that with a non-empty
explicit filter only the filtered identifiers are evaluated.  Below the
filter is `["x"]`, yet the previously known patient `k` (whose stored
digest — absent here — differs from the freshly computed one) is
evaluated by the known-registry pre-scan, which runs unconditionally
(main.py lines 197-224). -/
theorem C4_only_filtered_counterexample :
    Event.evalP "k" ∈ (runMain dbHealthy [("k", [])] [] [0] ["x"]).trace ∧
    "k" ∉ ["x"] := by
  constructor
  · decide
  · decide

/-- **C4, amended.**  A non-empty explicit filter suppresses only the
daily-discovery source: the run's outcome is then independent of the
`fetch_primary_patients_today` collaborator.  The known-registry
pre-scan and the repeat-curated source still contribute candidates
(see the counterexample). -/
theorem C4_filter_suppresses_daily_discovery (db : Db) (f : Nat → List String)
    (known0 : Known) (pdfs0 : List String) (dateRange : List Nat)
    (filterPcodes : List String) (hf : filterPcodes ≠ []) :
    runMain { db with primaryToday := f } known0 pdfs0 dateRange filterPcodes =
      runMain db known0 pdfs0 dateRange filterPcodes := by
  cases filterPcodes with
  | nil => exact absurd rfl hf
  | cons a as => rfl

/-- Witness for the amended C4 at a concrete input: replacing the
daily-discovery source by one that reports patient `y` changes nothing
when the filter `["x"]` is given. -/
theorem C4_filter_suppresses_daily_discovery_witness :
    runMain { dbHealthy with primaryToday := fun _ => ["y"] } [] [] [0] ["x"] =
      runMain dbHealthy [] [] [0] ["x"] :=
  C4_filter_suppresses_daily_discovery dbHealthy (fun _ => ["y"]) [] [] [0] ["x"]
    (by decide)

section EvaluationClaims

theorem needRegen_skip (h : Fingerprint) (s : Nat) (appts : List ApptRow)
    (hle : ∀ x ∈ appts.filterMap parseAppt, x ≤ s) :
    needRegen true h (.vhash h) (.vdate s) (latestAppt appts) = false := by
  unfold needRegen
  simp only [Bool.not_true, Bool.false_eq_true, if_false]
  have he : eqHash h (.vhash h) = true := by simp [eqHash]
  rw [he]
  simp only [Bool.not_true, Bool.false_eq_true, if_false]
  have hd : dateGtE (latestAppt appts) (.vdate s) = false := by
    cases hlat : latestAppt appts with
    | none => simp [dateGtE]
    | some l =>
        have hmem : l ∈ appts.filterMap parseAppt := maxOpt_mem hlat
        have : ¬ s < l := not_lt.mpr (hle l hmem)
        simp [dateGtE, this]
  rw [hd]
  simp [truthyE]

theorem getE_setAL_self (e : Entry) (k : String) (v : EVal) :
    getE (setAL e k v) k = v := by
  simp [getE, lookup_setAL_self]

theorem getE_setAL_ne (e : Entry) (k k' : String) (v : EVal) (h : k' ≠ k) :
    getE (setAL e k v) k' = getE e k' := by
  simp [getE, lookup_setAL_ne _ _ _ _ h]

/-- **C9**: any exception raised while fetching the snapshot (first
conjunct) or while rendering the document (second conjunct — the regen
path with a failing renderer) is caught inside the per-patient
evaluation: `process_patient` still returns (the model is total — the
error does not abort the run), the registry entry's `processed_on` is
stamped with the current target date, and no render event is emitted. -/
theorem C9_per_patient_errors_contained (db : Db) (pcode : String) (known : Known)
    (pdfs : List String) (d : Nat) :
    (∀ msg, db.collect pcode = .error msg →
      getE ((((process_patient db pcode known pdfs d).1.lookup pcode).getD []))
          "processed_on" = .vdate d ∧
      Event.render pcode ∉ (process_patient db pcode known pdfs d).2.2)
    ∧ (∀ snap h appts, db.collect pcode = .ok snap →
        calculate_patient_hash snap = .ok h → db.futureAppts pcode = .ok appts →
        needRegen (pdfs.contains pcode) h
            (getE ((known.lookup pcode).getD []) "data_hash")
            (getE ((known.lookup pcode).getD []) "last_appointment_date")
            (latestAppt appts) = true →
        db.renderOk pcode = false →
        getE ((((process_patient db pcode known pdfs d).1.lookup pcode).getD []))
            "processed_on" = .vdate d ∧
        Event.render pcode ∉ (process_patient db pcode known pdfs d).2.2) := by
  constructor
  · intro msg hmsg
    simp only [process_patient, hmsg, except_bind_error]
    constructor
    · simp [getE, lookup_setAL_self]
    · simp
  · intro snap h appts hsnap hh happts hreg hrok
    simp only [process_patient, hsnap, hh, happts, except_bind_ok]
    simp only [pure, Except.pure, hreg, hrok]
    constructor
    · simp [getE, lookup_setAL_self]
    · simp

/-- Witness for C9 at a concrete failing fetch. -/
theorem C9_per_patient_errors_contained_witness :
    getE ((((process_patient dbDown "p" [] [] 5).1.lookup "p").getD []))
        "processed_on" = .vdate 5 ∧
    Event.render "p" ∉ (process_patient dbDown "p" [] [] 5).2.2 :=
  (C9_per_patient_errors_contained dbDown "p" [] [] 5).1 "db unavailable" rfl

/-- The digest of the minimal snapshot, used by concrete instances. -/
def hashOfSample : Fingerprint :=
  match calculate_patient_hash sampleSnap with
  | .ok h => h
  | .error _ => []

/-- Registry holding `p1` with the digest of the current snapshot, a
stored appointment date, and a legacy extra key. -/
def knownSkip : Known :=
  [("p1", [("data_hash", EVal.vhash hashOfSample),
           ("last_appointment_date", EVal.vdate 3),
           ("legacy_note", EVal.vnone)])]

/-- Registry holding `p1` with a matching digest but a `null` stored
`last_appointment_date`. -/
def knownNullAppt : Known :=
  [("p1", [("data_hash", EVal.vhash hashOfSample),
           ("last_appointment_date", EVal.vnone),
           ("last_checked", EVal.vdate 3)])]

/-- **C3, counterexample.**  The claim promises the skip path whenever
the document exists, the stored digest equals the current fingerprint,
and no upcoming-appointment date later than the stored one is known.
Below the document exists, the digest matches, and no upcoming
appointment is known at all — yet the evaluation renders, because the
stored `last_appointment_date` is `null` and the fourth regeneration
condition (`last_saved_appt is None`) fires (main.py line 131). -/
theorem C3_idempotent_skip_counterexample :
    Event.render "p1" ∈ (process_patient dbHealthy "p1" knownNullAppt ["p1"] 7).2.2 := by
  have hsnap : dbHealthy.collect "p1" = .ok sampleSnap := rfl
  have hh : calculate_patient_hash sampleSnap = .ok hashOfSample := rfl
  have happts : dbHealthy.futureAppts "p1" = .ok [] := rfl
  have h1 : getE ((knownNullAppt.lookup "p1").getD []) "last_appointment_date" =
      .vnone := rfl
  have h2 : getE ((knownNullAppt.lookup "p1").getD []) "data_hash" =
      .vhash hashOfSample := rfl
  have hreg : needRegen ((["p1"] : List String).contains "p1") hashOfSample
      (getE ((knownNullAppt.lookup "p1").getD []) "data_hash")
      (getE ((knownNullAppt.lookup "p1").getD []) "last_appointment_date")
      (latestAppt []) = true := by
    rw [h1, h2]
    simp [needRegen, eqHash]
  have hrok : dbHealthy.renderOk "p1" = true := rfl
  simp only [process_patient, hsnap, hh, happts, except_bind_ok]
  simp only [pure, Except.pure, hreg, hrok]
  simp

/-- **C3, amended.**  For every patient whose document exists, whose
stored `data_hash` equals the fingerprint of the current snapshot,
whose entry stores a non-null `last_appointment_date`, and for whom no
upcoming-appointment date later than that stored date is known,
evaluation takes the skip path: no render event is issued, the entry is
mutated in place, `data_hash` and `last_updated` are left unchanged,
and only `last_checked` and `processed_on` advance to the target date. -/
theorem C3_idempotent_skip (db : Db) (pcode : String) (known : Known)
    (pdfs : List String) (d : Nat) (snap : Snapshot) (h : Fingerprint)
    (appts : List ApptRow) (s : Nat)
    (hsnap : db.collect pcode = .ok snap)
    (hh : calculate_patient_hash snap = .ok h)
    (happts : db.futureAppts pcode = .ok appts)
    (hpdf : pdfs.contains pcode = true)
    (hhash : getE ((known.lookup pcode).getD []) "data_hash" = .vhash h)
    (happ : getE ((known.lookup pcode).getD []) "last_appointment_date" = .vdate s)
    (hle : ∀ x ∈ appts.filterMap parseAppt, x ≤ s) :
    (process_patient db pcode known pdfs d).1 =
      setAL known pcode
        (setAL (setAL ((known.lookup pcode).getD []) "last_checked" (.vdate d))
          "processed_on" (.vdate d)) ∧
    (process_patient db pcode known pdfs d).2.1 = pdfs ∧
    Event.render pcode ∉ (process_patient db pcode known pdfs d).2.2 ∧
    getE ((((process_patient db pcode known pdfs d).1.lookup pcode).getD []))
        "data_hash" = getE ((known.lookup pcode).getD []) "data_hash" ∧
    getE ((((process_patient db pcode known pdfs d).1.lookup pcode).getD []))
        "last_updated" = getE ((known.lookup pcode).getD []) "last_updated" ∧
    getE ((((process_patient db pcode known pdfs d).1.lookup pcode).getD []))
        "last_checked" = .vdate d ∧
    getE ((((process_patient db pcode known pdfs d).1.lookup pcode).getD []))
        "processed_on" = .vdate d := by
  have hreg : needRegen (pdfs.contains pcode) h
      (getE ((known.lookup pcode).getD []) "data_hash")
      (getE ((known.lookup pcode).getD []) "last_appointment_date")
      (latestAppt appts) = false := by
    rw [hpdf, hhash, happ]
    exact needRegen_skip h s appts hle
  simp only [process_patient, hsnap, hh, happts, except_bind_ok]
  simp only [pure, Except.pure]
  rw [hreg]
  simp only [Bool.false_eq_true, if_false]
  refine ⟨by trivial, by trivial, by simp, ?_, ?_, ?_, ?_⟩ <;>
    simp [getE, lookup_setAL_self, lookup_setAL_ne]

/-- Witness for the amended C3 at a concrete input: digest matches,
stored appointment date `3`, no upcoming appointments. -/
theorem C3_idempotent_skip_witness :
    Event.render "p1" ∉ (process_patient dbHealthy "p1" knownSkip ["p1"] 7).2.2 ∧
    getE ((((process_patient dbHealthy "p1" knownSkip ["p1"] 7).1.lookup "p1").getD []))
        "data_hash" = getE ((knownSkip.lookup "p1").getD []) "data_hash" :=
  have hmain := C3_idempotent_skip dbHealthy "p1" knownSkip ["p1"] 7 sampleSnap
    hashOfSample [] 3 rfl rfl rfl rfl rfl rfl (by simp)
  ⟨hmain.2.2.1, hmain.2.2.2.1⟩

end EvaluationClaims

/-- **C10**: on the regenerate path the registry entry is replaced
wholesale by a mapping with exactly the five tracked keys, in source
order — any other keys previously stored are discarded (first
conjunct); on the skip path (second conjunct) and on the error path
(third conjunct) the existing entry is mutated in place: only
`last_checked`/`processed_on` (respectively `processed_on`) are
written and every other key keeps its previous value. -/
theorem C10_regen_replaces_entry_wholesale (db : Db) (pcode : String) (known : Known)
    (pdfs : List String) (d : Nat) :
    (∀ snap h appts, db.collect pcode = .ok snap →
        calculate_patient_hash snap = .ok h → db.futureAppts pcode = .ok appts →
        needRegen (pdfs.contains pcode) h
          (getE ((known.lookup pcode).getD []) "data_hash")
          (getE ((known.lookup pcode).getD []) "last_appointment_date")
          (latestAppt appts) = true →
        db.renderOk pcode = true →
        (process_patient db pcode known pdfs d).1.lookup pcode =
          some [("last_appointment_date",
                  match latestAppt appts with | some l => EVal.vdate l | none => EVal.vnone),
                ("data_hash", .vhash h),
                ("last_checked", .vdate d),
                ("last_updated", .vdate db.today),
                ("processed_on", .vdate d)])
    ∧ (∀ snap h appts, db.collect pcode = .ok snap →
        calculate_patient_hash snap = .ok h → db.futureAppts pcode = .ok appts →
        needRegen (pdfs.contains pcode) h
          (getE ((known.lookup pcode).getD []) "data_hash")
          (getE ((known.lookup pcode).getD []) "last_appointment_date")
          (latestAppt appts) = false →
        (process_patient db pcode known pdfs d).1.lookup pcode =
          some (setAL (setAL ((known.lookup pcode).getD []) "last_checked" (.vdate d))
            "processed_on" (.vdate d)) ∧
        ∀ k, k ≠ "last_checked" → k ≠ "processed_on" →
          (setAL (setAL ((known.lookup pcode).getD []) "last_checked" (.vdate d))
              "processed_on" (.vdate d)).lookup k =
            ((known.lookup pcode).getD []).lookup k)
    ∧ (∀ msg, db.collect pcode = .error msg →
        (process_patient db pcode known pdfs d).1.lookup pcode =
          some (setAL ((known.lookup pcode).getD []) "processed_on" (.vdate d)) ∧
        ∀ k, k ≠ "processed_on" →
          (setAL ((known.lookup pcode).getD []) "processed_on" (.vdate d)).lookup k =
            ((known.lookup pcode).getD []).lookup k) := by
  refine ⟨?_, ?_, ?_⟩
  · intro snap h appts hsnap hh happts hreg hrok
    simp only [process_patient, hsnap, hh, happts, except_bind_ok]
    simp only [pure, Except.pure, hreg, hrok]
    simp [lookup_setAL_self]
  · intro snap h appts hsnap hh happts hreg
    simp only [process_patient, hsnap, hh, happts, except_bind_ok]
    simp only [pure, Except.pure]
    rw [hreg]
    simp only [Bool.false_eq_true, if_false]
    refine ⟨by simp [lookup_setAL_self], ?_⟩
    intro k hk1 hk2
    rw [lookup_setAL_ne _ _ _ _ hk2, lookup_setAL_ne _ _ _ _ hk1]
  · intro msg hmsg
    simp only [process_patient, hmsg, except_bind_error]
    refine ⟨by simp [lookup_setAL_self], ?_⟩
    intro k hk
    rw [lookup_setAL_ne _ _ _ _ hk]

/-- Witness for C10 at a concrete regenerate: patient unknown to the
registry, no document yet, rendering succeeds — the stored entry is the
exact five-key mapping. -/
theorem C10_regen_replaces_entry_wholesale_witness :
    (process_patient dbHealthy "p1" [] [] 7).1.lookup "p1" =
      some [("last_appointment_date", EVal.vnone),
            ("data_hash", EVal.vhash hashOfSample),
            ("last_checked", EVal.vdate 7),
            ("last_updated", EVal.vdate 9),
            ("processed_on", EVal.vdate 7)] :=
  (C10_regen_replaces_entry_wholesale dbHealthy "p1" [] [] 7).1 sampleSnap
    hashOfSample [] rfl rfl rfl rfl rfl

section DigestClaims

theorem projParams_ok : ∀ (l : List PyRow),
    (∀ row ∈ l, (row.lookup "NAMEPARAMS").isSome ∧ (row.lookup "VALUETEXT").isSome) →
    ∃ out, projParams l = .ok out := by
  intro l
  induction l with
  | nil => intro _; exact ⟨[], rfl⟩
  | cons row rest ih =>
      intro hp
      obtain ⟨hn, hv⟩ := hp row (by simp)
      obtain ⟨n, hn⟩ := Option.isSome_iff_exists.mp hn
      obtain ⟨v, hv⟩ := Option.isSome_iff_exists.mp hv
      obtain ⟨tail, htail⟩ := ih (fun r hr => hp r (by simp [hr]))
      refine ⟨(n, v) :: tail, ?_⟩
      simp [projParams, pyGet, hn, hv, htail, except_bind_ok]

theorem projComposite_ok : ∀ (l : List PyRow),
    (∀ row ∈ l, (row.lookup "CONCATENATION").isSome) →
    ∃ out, projComposite l = .ok out := by
  intro l
  induction l with
  | nil => intro _; exact ⟨[], rfl⟩
  | cons row rest ih =>
      intro hc
      obtain ⟨v, hv⟩ := Option.isSome_iff_exists.mp (hc row (by simp))
      obtain ⟨tail, htail⟩ := ih (fun r hr => hc r (by simp [hr]))
      refine ⟨v :: tail, ?_⟩
      simp [projComposite, pyGet, hv, htail, except_bind_ok]

/-- A snapshot whose examination-parameter row lacks the `NAMEPARAMS`
column. -/
def badSnap : Snapshot := { sampleSnap with params := [[]] }

/-- A snapshot with well-formed examination-parameter and
composite-plan rows. -/
def goodSnap : Snapshot :=
  { sampleSnap with
      params := [[("NAMEPARAMS", some (.s "Прикус")), ("VALUETEXT", some (.s "норма"))]],
      compositePlan := [[("CONCATENATION", some (.s "Удаление зуба"))]] }

/-- **C5, counterexample.**  The claim says the fingerprint computation
never raises: a throwing field projection is caught and coerced to the
null token.  But neither `calculate_patient_hash` nor
`format_patient_data` contains any handler: a snapshot whose `params`
row lacks the `NAMEPARAMS` key makes the comprehension
`{p["NAMEPARAMS"]: ...}` raise `KeyError`, and the whole digest aborts
with that exception instead of producing a digest with a null field. -/
theorem C5_never_raises_counterexample :
    calculate_patient_hash badSnap = .error "KeyError: NAMEPARAMS" := rfl

/-- **C5, amended.**  The fingerprint computation has no per-field
exception handling; `.get`-style projections cannot throw (absent
values fall back to defaults), and the only throwing projections are
the `row["KEY"]` indexings of the `params` and `composite_plan` rows.
Consequently, for every snapshot whose `params` rows carry
`NAMEPARAMS`/`VALUETEXT` and whose `composite_plan` rows carry
`CONCATENATION`, the digest is produced without raising; a malformed
row aborts the whole digest (see the counterexample), the exception
being caught only by the per-patient handler upstream. -/
theorem C5_digest_total_on_wellformed_rows (s : Snapshot)
    (hp : ∀ row ∈ s.params,
      (row.lookup "NAMEPARAMS").isSome ∧ (row.lookup "VALUETEXT").isSome)
    (hc : ∀ row ∈ s.compositePlan, (row.lookup "CONCATENATION").isSome) :
    ∃ h, calculate_patient_hash s = .ok h := by
  obtain ⟨ps, hps⟩ := projParams_ok s.params hp
  obtain ⟨cs, hcs⟩ := projComposite_ok s.compositePlan hc
  cases hE : format_patient_data s with
  | ok f => exact ⟨fingerprint f, calc_hash_of_format hE⟩
  | error e =>
      exfalso
      simp [format_patient_data, hps, hcs, except_bind_ok] at hE

/-- Witness for the amended C5: a snapshot with well-formed rows
digests successfully. -/
theorem C5_digest_total_on_wellformed_rows_witness :
    ∃ h, calculate_patient_hash goodSnap = .ok h :=
  C5_digest_total_on_wellformed_rows goodSnap
    (by intro row hr; simp [goodSnap, sampleSnap] at hr; simp [hr, List.lookup])
    (by intro row hr; simp [goodSnap, sampleSnap] at hr; simp [hr, List.lookup])

/-- **C6**: determinism and injectivity of the fingerprint, with the
MD5 digest abstracted by the canonical (key-sorted) serialization it is
computed over.  First conjunct: the canonical form is invariant under
any re-ordering (field insertion / hash-map iteration order) of the
tracked-field record.  Second conjunct: two snapshots with identical
canonical (tracked) field values produce the identical fingerprint.
Third conjunct: two snapshots that differ in any tracked field produce
different fingerprints. -/
theorem C6_fingerprint_determinism :
    (∀ l₁ l₂ : List (String × HVal), l₁.Perm l₂ → (l₁.map Prod.fst).Nodup →
        sortByKey l₁ = sortByKey l₂)
    ∧ (∀ (x y : Snapshot) (fx fy : Formatted),
        format_patient_data x = .ok fx → format_patient_data y = .ok fy →
        keyFields fx = keyFields fy →
        calculate_patient_hash x = calculate_patient_hash y)
    ∧ (∀ (x y : Snapshot) (fx fy : Formatted),
        format_patient_data x = .ok fx → format_patient_data y = .ok fy →
        keyFields fx ≠ keyFields fy →
        calculate_patient_hash x ≠ calculate_patient_hash y) := by
  refine ⟨fun l₁ l₂ p nd => sortByKey_perm_invariant p nd, ?_, ?_⟩
  · intro x y fx fy hx hy hk
    rw [calc_hash_of_format hx, calc_hash_of_format hy]
    unfold fingerprint
    rw [hk]
  · intro x y fx fy hx hy hk hc
    rw [calc_hash_of_format hx, calc_hash_of_format hy] at hc
    exact hk (fingerprint_inj (Except.ok.inj hc))

/-- Total accessor for a formatting result (fallback value unused on
the snapshots it is applied to). -/
def fmtOf (s : Snapshot) : Formatted :=
  match format_patient_data s with
  | .ok f => f
  | .error _ =>
      ⟨"", none, none, none, none, "", "", "", "", .i 0, "", none, "", "", "", "",
        0, [], [], [], [], [], 0⟩

/-- Witness for C6 at concrete snapshots: `sampleSnap` and a copy with
a different treatment stage digest differently. -/
theorem C6_fingerprint_determinism_witness :
    calculate_patient_hash sampleSnap ≠ calculate_patient_hash sampleSnapB :=
  C6_fingerprint_determinism.2.2 sampleSnap sampleSnapB
    (fmtOf sampleSnap) (fmtOf sampleSnapB) rfl rfl (by decide)

end DigestClaims

section MergerLemmas

theorem writeRow_nil (v : Row) : writeRow [] v = v := by
  simp [writeRow]

theorem writeRow_writeRow (old v1 v2 : Row) (h : v1.length = v2.length) :
    writeRow (writeRow old v1) v2 = writeRow old v2 := by
  simp only [writeRow]
  rw [← h, List.drop_append_of_le_length (le_refl v1.length)]
  simp [List.drop_left]

theorem set_append_last (S : Sheet) (x y : Row) :
    (S ++ [x]).set S.length y = S ++ [y] := by
  induction S with
  | nil => rfl
  | cons h t ih => simp [List.set, ih]

theorem drop_one_set (S : Sheet) (j : Nat) (x : Row) :
    (S.set (j + 1) x).drop 1 = (S.drop 1).set j x := by
  cases S with
  | nil => rfl
  | cons h t => rfl

theorem drop_one_append (S : Sheet) (x : Row) (h : S ≠ []) :
    (S ++ [x]).drop 1 = S.drop 1 ++ [x] := by
  cases S with
  | nil => exact absurd rfl h
  | cons h t => rfl

theorem drop_one_append_gen (S B : Sheet) (h : S ≠ []) :
    (S ++ B).drop 1 = S.drop 1 ++ B := by
  cases S with
  | nil => exact absurd rfl h
  | cons a t => rfl

theorem getD_set_self (l : List Row) (i : Nat) (x : Row) (h : i < l.length) :
    (l.set i x).getD i [] = x := by
  induction l generalizing i with
  | nil => simp at h
  | cons a t ih =>
      cases i with
      | zero => rfl
      | succ j => exact ih j (by simpa using h)

theorem getD_set_ne (l : List Row) (i j : Nat) (x : Row) (h : j ≠ i) :
    (l.set i x).getD j [] = l.getD j [] := by
  induction l generalizing i j with
  | nil => simp
  | cons a t ih =>
      cases i with
      | zero =>
          cases j with
          | zero => exact absurd rfl h
          | succ j0 => rfl
      | succ i0 =>
          cases j with
          | zero => rfl
          | succ j0 => exact ih i0 j0 (fun hc => h (by rw [hc]))

theorem set_getD_self (l : List Row) (i : Nat) (x : Row)
    (h : l.getD i [] = x) (hlt : i < l.length) : l.set i x = l := by
  induction l generalizing i with
  | nil => simp at hlt
  | cons a t ih =>
      cases i with
      | zero => simp at h; simp [List.set, h]
      | succ j =>
          simp only [List.set]
          rw [ih j (by simpa using h) (by simpa using hlt)]

theorem findRowIdx_lt_length {rows : List Row} {f : String} {j : Nat}
    (h : findRowIdx rows f = some j) : j < rows.length := by
  induction rows generalizing j with
  | nil => simp [findRowIdx] at h
  | cons a t ih =>
      simp only [findRowIdx] at h
      by_cases hm : rowMatchesFio a f
      · rw [if_pos hm] at h
        simp at h
        simp [← h]
      · rw [if_neg hm] at h
        cases ht : findRowIdx t f with
        | none => rw [ht] at h; simp at h
        | some j0 =>
            rw [ht] at h
            simp at h
            rw [← h]
            simpa using ih ht

theorem findRowIdx_getD_matches {rows : List Row} {f : String} {j : Nat}
    (h : findRowIdx rows f = some j) : rowMatchesFio (rows.getD j []) f = true := by
  induction rows generalizing j with
  | nil => simp [findRowIdx] at h
  | cons a t ih =>
      simp only [findRowIdx] at h
      by_cases hm : rowMatchesFio a f
      · rw [if_pos hm] at h
        simp at h
        simp [← h, hm]
      · rw [if_neg hm] at h
        cases ht : findRowIdx t f with
        | none => rw [ht] at h; simp at h
        | some j0 =>
            rw [ht] at h
            simp at h
            rw [← h]
            simpa using ih ht

theorem findRowIdx_none_iff {rows : List Row} {f : String} :
    findRowIdx rows f = none ↔ ∀ row ∈ rows, rowMatchesFio row f = false := by
  induction rows with
  | nil => simp [findRowIdx]
  | cons a t ih =>
      simp only [findRowIdx]
      by_cases hm : rowMatchesFio a f
      · rw [if_pos hm]
        simp [hm]
      · rw [if_neg hm]
        constructor
        · intro h row hr
          have ht : findRowIdx t f = none := by
            cases hx : findRowIdx t f with
            | none => rfl
            | some j => rw [hx] at h; simp at h
          rcases List.mem_cons.mp hr with hr | hr
          · rw [hr]; exact Bool.eq_false_iff.mpr hm
          · exact (ih.mp ht) row hr
        · intro h
          rw [ih.mpr (fun row hr => h row (List.mem_cons_of_mem a hr))]
          rfl

theorem findRowIdx_append_left {A : List Row} (B : List Row) {f : String} {j : Nat}
    (h : findRowIdx A f = some j) : findRowIdx (A ++ B) f = some j := by
  induction A generalizing j with
  | nil => simp [findRowIdx] at h
  | cons a t ih =>
      simp only [findRowIdx, List.cons_append, List.append_eq] at h ⊢
      by_cases hm : rowMatchesFio a f
      · rw [if_pos hm] at h ⊢; exact h
      · rw [if_neg hm] at h ⊢
        cases ht : findRowIdx t f with
        | none => rw [ht] at h; simp at h
        | some j0 =>
            rw [ht] at h
            rw [ih ht]
            exact h

theorem findRowIdx_append_right {A : List Row} (B : List Row) {f : String}
    (h : findRowIdx A f = none) :
    findRowIdx (A ++ B) f = (findRowIdx B f).map (· + A.length) := by
  induction A with
  | nil => simp [Option.map_id]
  | cons a t ih =>
      simp only [findRowIdx, List.cons_append, List.append_eq] at h ⊢
      by_cases hm : rowMatchesFio a f
      · rw [if_pos hm] at h; simp at h
      · rw [if_neg hm] at h ⊢
        have ht : findRowIdx t f = none := by
          cases hx : findRowIdx t f with
          | none => rfl
          | some j => rw [hx] at h; simp at h
        rw [ih ht]
        cases findRowIdx B f with
        | none => rfl
        | some j =>
            simp [List.length_cons, Nat.add_assoc]

theorem findRowIdx_set_preserve {rows : List Row} {f : String} {j : Nat} (x : Row)
    (h : findRowIdx rows f = some j) (hx : rowMatchesFio x f = true) :
    findRowIdx (rows.set j x) f = some j := by
  induction rows generalizing j with
  | nil => simp [findRowIdx] at h
  | cons a t ih =>
      simp only [findRowIdx] at h
      by_cases hm : rowMatchesFio a f
      · rw [if_pos hm] at h
        simp at h
        rw [← h]
        simp [List.set, findRowIdx, hx]
      · rw [if_neg hm] at h
        cases ht : findRowIdx t f with
        | none => rw [ht] at h; simp at h
        | some j0 =>
            rw [ht] at h
            simp at h
            rw [← h]
            simp only [List.set, findRowIdx]
            rw [if_neg hm, ih ht]
            rfl

theorem foldl_const {σ α : Type} (f : σ → α → σ) (s : σ) (l : List α)
    (h : ∀ a ∈ l, f s a = s) : l.foldl f s = s := by
  induction l with
  | nil => rfl
  | cons x xs ih =>
      simp only [List.foldl_cons, h x (by simp)]
      exact ih (fun a ha => h a (List.mem_cons_of_mem x ha))

end MergerLemmas

section MergeStepLemmas

theorem dataValues_length (r : InRow) (n : Nat) : (dataValues r n).length = 18 := rfl

theorem rowMatches_write (old : Row) (r : InRow) (m : Nat) (f : String)
    (ht : pyStrip r.fio = r.fio) :
    rowMatchesFio (writeRow old (dataValues r m)) f = decide (r.fio = f) := by
  show decide (pyStrip (cvStrOr (CVal.s (pyStrip r.fio))) = f) = decide (r.fio = f)
  show decide (pyStrip (pyStrip r.fio) = f) = decide (r.fio = f)
  rw [ht, ht]

theorem mergeStep_found (S : Sheet) (r : InRow) (i : Nat)
    (ht : pyStrip r.fio = r.fio) (hne : r.fio ≠ "")
    (hfind : findFio S r.fio = some i) :
    mergeStep S r = S.set i (writeRow (S.getD i []) (dataValues r (i + 1))) := by
  simp only [mergeStep, ht]
  rw [if_neg hne, hfind]

theorem mergeStep_notfound (S : Sheet) (r : InRow)
    (ht : pyStrip r.fio = r.fio) (hne : r.fio ≠ "")
    (hfind : findFio S r.fio = none) :
    mergeStep S r = S ++ [writeRow [] (dataValues r (S.length + 1))] := by
  simp only [mergeStep, ht]
  rw [if_neg hne, hfind]
  simp only [List.length_append, List.length_cons, List.length_nil, Nat.add_sub_cancel,
    Nat.zero_add]
  exact set_append_last S [] _

theorem findFio_decomp {S : Sheet} {f : String} {i : Nat}
    (h : findFio S f = some i) :
    ∃ j, findRowIdx (S.drop 1) f = some j ∧ i = j + 1 := by
  simp only [findFio] at h
  cases hx : findRowIdx (S.drop 1) f with
  | none => rw [hx] at h; simp at h
  | some j =>
      rw [hx] at h
      simp at h
      exact ⟨j, rfl, h.symm⟩

theorem findFio_lt {S : Sheet} {f : String} {i : Nat}
    (h : findFio S f = some i) : 0 < i ∧ i < S.length := by
  obtain ⟨j, hj, hi⟩ := findFio_decomp h
  have := findRowIdx_lt_length hj
  rw [List.length_drop] at this
  omega

theorem getD_append_last (S : Sheet) (x : Row) : (S ++ [x]).getD S.length [] = x := by
  induction S with
  | nil => rfl
  | cons a t ih =>
      simp only [List.cons_append, List.length_cons, List.getD_cons_succ]
      exact ih

theorem count_pos_of_found {rows : List Row} {f : String} {j : Nat}
    (h : findRowIdx rows f = some j) :
    0 < (rows.filter (fun row => rowMatchesFio row f)).length := by
  induction rows generalizing j with
  | nil => simp [findRowIdx] at h
  | cons a t ih =>
      simp only [findRowIdx] at h
      by_cases hm : rowMatchesFio a f
      · simp [List.filter_cons, hm]
      · rw [if_neg hm] at h
        cases ht : findRowIdx t f with
        | none => rw [ht] at h; simp at h
        | some j0 =>
            simp [List.filter_cons, hm]
            exact ih ht

theorem count_set_matching (rows : List Row) (j : Nat) (x : Row) (f : String)
    (hj : rowMatchesFio (rows.getD j []) f = true)
    (hx : rowMatchesFio x f = true) :
    ((rows.set j x).filter (fun row => rowMatchesFio row f)).length =
      (rows.filter (fun row => rowMatchesFio row f)).length := by
  induction rows generalizing j with
  | nil => simp
  | cons a t ih =>
      cases j with
      | zero =>
          simp only [List.getD_cons_zero] at hj
          simp [List.set, List.filter_cons, hj, hx]
      | succ j0 =>
          simp only [List.getD_cons_succ] at hj
          simp only [List.set, List.filter_cons]
          by_cases hm : rowMatchesFio a f
          · simp [hm, ih j0 hj]
          · simp [hm, ih j0 hj]

end MergeStepLemmas

/-- **C7**: the aggregate-report merge deduplicates by identity key in
place.  First conjunct: an incoming row whose identity matches an
existing data row overwrites exactly that row's cells at its original
position — the sheet keeps its length and every other row is untouched.
Second conjunct: merging two rows carrying the same identity key (with
arbitrarily different field values) into a sheet holding at most one
row for that identity leaves exactly one data row for it, whose cells
are those of the later row, at the identity's original position (or
appended at the end when the identity was absent). -/
theorem C7_merge_overwrites_in_place :
    (∀ (S : Sheet) (r : InRow) (i : Nat),
        pyStrip r.fio = r.fio → r.fio ≠ "" → findFio S r.fio = some i →
        (mergeStep S r).length = S.length ∧
        (mergeStep S r).getD i [] = writeRow (S.getD i []) (dataValues r (i + 1)) ∧
        ∀ j, j ≠ i → (mergeStep S r).getD j [] = S.getD j [])
    ∧ (∀ (S : Sheet) (r1 r2 : InRow),
        S ≠ [] → pyStrip r1.fio = r1.fio → r2.fio = r1.fio → r1.fio ≠ "" →
        countFio S r1.fio ≤ 1 →
        countFio (mergeRows S [r1, r2]) r1.fio = 1 ∧
        (∀ i, findFio S r1.fio = some i →
          (mergeRows S [r1, r2]).getD i [] =
            writeRow (S.getD i []) (dataValues r2 (i + 1)) ∧
          (mergeRows S [r1, r2]).length = S.length) ∧
        (findFio S r1.fio = none →
          (mergeRows S [r1, r2]).getD S.length [] =
            writeRow [] (dataValues r2 (S.length + 1)) ∧
          (mergeRows S [r1, r2]).length = S.length + 1)) := by
  constructor
  · intro S r i ht hne hfind
    rw [mergeStep_found S r i ht hne hfind]
    have hlt := (findFio_lt hfind).2
    refine ⟨List.length_set .., getD_set_self S i _ hlt, fun j hj => getD_set_ne S i j _ hj⟩
  · intro S r1 r2 hS ht1 hr2 hne1 hcount
    have ht2 : pyStrip r2.fio = r2.fio := by rw [hr2, ht1]
    have hne2 : r2.fio ≠ "" := by rw [hr2]; exact hne1
    have hmerge2 : mergeRows S [r1, r2] = mergeStep (mergeStep S r1) r2 := rfl
    cases hfind : findFio S r1.fio with
    | some i =>
        obtain ⟨j, hj, hi⟩ := findFio_decomp hfind
        subst hi
        have hlt := (findFio_lt hfind).2
        have hpos := (findFio_lt hfind).1
        have hstep1 : mergeStep S r1 =
            S.set (j + 1) (writeRow (S.getD (j + 1) []) (dataValues r1 (j + 1 + 1))) :=
          mergeStep_found S r1 (j + 1) ht1 hne1 hfind
        have hmatch1 : rowMatchesFio
            (writeRow (S.getD (j + 1) []) (dataValues r1 (j + 1 + 1))) r1.fio = true := by
          rw [rowMatches_write _ r1 _ _ ht1]; simp
        have hfind2 : findFio (mergeStep S r1) r2.fio = some (j + 1) := by
          rw [hstep1, hr2]
          simp only [findFio]
          rw [drop_one_set]
          rw [findRowIdx_set_preserve _ hj hmatch1]
          rfl
        have hstep2 : mergeStep (mergeStep S r1) r2 =
            (mergeStep S r1).set (j + 1)
              (writeRow ((mergeStep S r1).getD (j + 1) []) (dataValues r2 (j + 1 + 1))) :=
          mergeStep_found _ r2 (j + 1) ht2 hne2 hfind2
        have hgd : (mergeStep S r1).getD (j + 1) [] =
            writeRow (S.getD (j + 1) []) (dataValues r1 (j + 1 + 1)) := by
          rw [hstep1]
          exact getD_set_self S (j + 1) _ hlt
        have hres : mergeRows S [r1, r2] =
            S.set (j + 1) (writeRow (S.getD (j + 1) []) (dataValues r2 (j + 1 + 1))) := by
          rw [hmerge2, hstep2, hgd,
            writeRow_writeRow _ _ _ (by rw [dataValues_length, dataValues_length]),
            hstep1, List.set_set]
        refine ⟨?_, ?_, ?_⟩
        · rw [hres]
          have hjm : rowMatchesFio ((S.drop 1).getD j []) r1.fio = true :=
            findRowIdx_getD_matches hj
          have hmatch2 : rowMatchesFio (writeRow (S.getD (j + 1) [])
              (dataValues r2 (j + 1 + 1))) r1.fio = true := by
            rw [rowMatches_write _ r2 _ _ ht2, hr2]; simp
          have hcnt_eq : countFio (S.set (j + 1) (writeRow (S.getD (j + 1) [])
              (dataValues r2 (j + 1 + 1)))) r1.fio = countFio S r1.fio := by
            simp only [countFio]
            rw [drop_one_set]
            exact count_set_matching (S.drop 1) j _ r1.fio hjm hmatch2
          rw [hcnt_eq]
          have hge : 0 < countFio S r1.fio := count_pos_of_found hj
          omega
        · intro i0 hi0
          have hii : i0 = j + 1 := by injection hi0 with h; exact h.symm
          subst hii
          refine ⟨?_, ?_⟩
          · rw [hres]; exact getD_set_self S (j + 1) _ hlt
          · rw [hres]; exact List.length_set ..
        · intro hcontra
          simp at hcontra
    | none =>
        have hstep1 : mergeStep S r1 =
            S ++ [writeRow [] (dataValues r1 (S.length + 1))] :=
          mergeStep_notfound S r1 ht1 hne1 hfind
        have hlen1 : 1 ≤ S.length := by
          cases S with
          | nil => exact absurd rfl hS
          | cons a t => simp
        have hnone : findRowIdx (S.drop 1) r1.fio = none := by
          simp only [findFio] at hfind
          cases hx : findRowIdx (S.drop 1) r1.fio with
          | none => rfl
          | some j => rw [hx] at hfind; simp at hfind
        have hfind2 : findFio (mergeStep S r1) r2.fio = some S.length := by
          rw [hstep1, hr2]
          simp only [findFio]
          rw [drop_one_append S _ hS]
          rw [findRowIdx_append_right _ hnone]
          have hone : findRowIdx [writeRow [] (dataValues r1 (S.length + 1))]
              r1.fio = some 0 := by
            simp only [findRowIdx]
            rw [if_pos (by rw [rowMatches_write _ r1 _ _ ht1]; simp)]
          rw [hone]
          show some (0 + (S.drop 1).length + 1) = some S.length
          congr 1
          rw [List.length_drop]
          omega
        have hgd : (mergeStep S r1).getD S.length [] =
            writeRow [] (dataValues r1 (S.length + 1)) := by
          rw [hstep1]; exact getD_append_last S _
        have hstep2 : mergeStep (mergeStep S r1) r2 =
            (mergeStep S r1).set S.length
              (writeRow ((mergeStep S r1).getD S.length [])
                (dataValues r2 (S.length + 1))) := by
          have := mergeStep_found (mergeStep S r1) r2 S.length ht2 hne2 hfind2
          rw [this]
        have hres : mergeRows S [r1, r2] =
            S ++ [writeRow [] (dataValues r2 (S.length + 1))] := by
          rw [hmerge2, hstep2, hgd,
            writeRow_writeRow _ _ _ (by rw [dataValues_length, dataValues_length]),
            hstep1, set_append_last]
        refine ⟨?_, ?_, ?_⟩
        · simp only [countFio]
          rw [hres, drop_one_append S _ hS, List.filter_append]
          have h0 : (S.drop 1).filter (fun row => rowMatchesFio row r1.fio) = [] :=
            List.filter_eq_nil_iff.mpr (fun row hr =>
              by simp [findRowIdx_none_iff.mp hnone row hr])
          rw [h0]
          simp [rowMatches_write _ r2 _ _ ht2, hr2]
        · intro i0 hi0
          simp at hi0
        · intro _
          refine ⟨?_, ?_⟩
          · rw [hres]; exact getD_append_last S _
          · rw [hres]; simp

/-- Two incoming rows sharing the identity key with different values. -/
def rowW1 : InRow :=
  ⟨"Иванов Иван", .n 30, .s "K", .s "A", .s "B", .s "D", .d 5, .n 2, .s "—",
    .n 100, .n 50, .n 10, .s "10", .s "S", .s "O", .s "F", .s "Нет"⟩

/-- Same identity as `rowW1`, different age. -/
def rowW2 : InRow :=
  ⟨"Иванов Иван", .n 31, .s "K", .s "A", .s "B", .s "D", .d 5, .n 2, .s "—",
    .n 100, .n 50, .n 10, .s "10", .s "S", .s "O", .s "F", .s "Нет"⟩

/-- Witness for C7: merging the same identity twice into a fresh sheet
leaves exactly one data row for it. -/
theorem C7_merge_overwrites_in_place_witness :
    countFio (mergeRows [headerRow] [rowW1, rowW2]) "Иванов Иван" = 1 :=
  (C7_merge_overwrites_in_place.2 [headerRow] rowW1 rowW2 (by simp)
    (by decide) rfl (by decide) (by decide)).1


section IdempotenceLemmas

theorem mergeStep_empty (S : Sheet) (r : InRow) (h : pyStrip r.fio = "") :
    mergeStep S r = S := by
  simp [mergeStep, h]

/-- A row matches at most one identity key: its column-B cell has a
single stripped value. -/
theorem rowMatches_unique {row : Row} {f1 f2 : String}
    (h : rowMatchesFio row f1 = true) (hne : f2 ≠ f1) :
    rowMatchesFio row f2 = false := by
  simp only [rowMatchesFio, decide_eq_true_eq] at h
  simp only [rowMatchesFio, h, decide_eq_false_iff_not]
  intro hc
  exact hne hc.symm

theorem getD_append_left {A : Sheet} (B : Sheet) {i : Nat} (h : i < A.length) :
    (A ++ B).getD i [] = A.getD i [] := by
  induction A generalizing i with
  | nil => simp at h
  | cons a t ih =>
      cases i with
      | zero => rfl
      | succ j =>
          simp only [List.cons_append, List.getD_cons_succ]
          exact ih (by simpa using h)

theorem getD_drop_one (S : Sheet) (j : Nat) :
    (S.drop 1).getD j [] = S.getD (j + 1) [] := by
  cases S with
  | nil => rfl
  | cons a t => rfl

/-- `findRowIdx` is unchanged by overwriting a position when neither
the old nor the new row there matches the key. -/
theorem findRowIdx_set_invariant {l : List Row} {j : Nat} {x : Row} {f : String}
    (hold : rowMatchesFio (l.getD j []) f = false)
    (hnew : rowMatchesFio x f = false) :
    findRowIdx (l.set j x) f = findRowIdx l f := by
  induction l generalizing j with
  | nil => rfl
  | cons a t ih =>
      cases j with
      | zero =>
          simp only [List.getD_cons_zero] at hold
          simp only [List.set, findRowIdx, hold, hnew, Bool.false_eq_true, if_false]
      | succ j0 =>
          simp only [List.getD_cons_succ] at hold
          simp only [List.set, findRowIdx]
          rw [ih hold]

theorem mergeStep_length_ge (S : Sheet) (r : InRow) :
    S.length ≤ (mergeStep S r).length := by
  by_cases he : pyStrip r.fio = ""
  · simp [mergeStep, he]
  · simp only [mergeStep, if_neg he]
    cases findFio S (pyStrip r.fio) with
    | some i => simp
    | none =>
        simp only [List.length_set, List.length_append, List.length_cons,
          List.length_nil]
        omega

theorem mergeStep_ne_nil (S : Sheet) (r : InRow) (h : S ≠ []) :
    mergeStep S r ≠ [] := by
  have h1 : 0 < S.length := List.length_pos.mpr h
  have h2 := mergeStep_length_ge S r
  exact List.length_pos.mp (by omega)

theorem mergeRows_ne_nil (S : Sheet) (rows : List InRow) (h : S ≠ []) :
    mergeRows S rows ≠ [] := by
  induction rows generalizing S with
  | nil => exact h
  | cons r rest ih =>
      show mergeRows (mergeStep S r) rest ≠ []
      exact ih (mergeStep S r) (mergeStep_ne_nil S r h)

/-- After the merge has processed an incoming row, the sheet holds a
settled row for its identity: the first column-B match is a row whose
cells are exactly the merge's own write for that position (an
overwrite with the same values is then the identity). -/
def mergedRowAt (S : Sheet) (r : InRow) : Prop :=
  ∃ i X, findFio S r.fio = some i ∧
    S.getD i [] = writeRow X (dataValues r (i + 1)) ∧ i < S.length

theorem mergedRowAt_establish (S : Sheet) (r : InRow) (hS : S ≠ [])
    (htr : pyStrip r.fio = r.fio) (hne : r.fio ≠ "") :
    mergedRowAt (mergeStep S r) r := by
  unfold mergedRowAt
  cases hf : findFio S r.fio with
  | some i =>
      have hib := findFio_lt hf
      obtain ⟨j, hj, hij⟩ := findFio_decomp hf
      rw [mergeStep_found S r i htr hne hf]
      refine ⟨i, S.getD i [], ?_, ?_, ?_⟩
      · simp only [findFio]
        rw [hij, drop_one_set,
          findRowIdx_set_preserve _ hj (by rw [rowMatches_write _ r _ _ htr]; simp)]
        rfl
      · exact getD_set_self S i _ hib.2
      · simpa [List.length_set] using hib.2
  | none =>
      rw [mergeStep_notfound S r htr hne hf]
      have hnone : findRowIdx (S.drop 1) r.fio = none := by
        simp only [findFio] at hf
        cases hx : findRowIdx (S.drop 1) r.fio with
        | none => rfl
        | some j => rw [hx] at hf; simp at hf
      refine ⟨S.length, [], ?_, ?_, ?_⟩
      · simp only [findFio]
        rw [drop_one_append S _ hS, findRowIdx_append_right _ hnone]
        have hone : findRowIdx [writeRow [] (dataValues r (S.length + 1))] r.fio
            = some 0 := by
          simp only [findRowIdx]
          rw [if_pos (by rw [rowMatches_write _ r _ _ htr]; simp)]
        rw [hone]
        show some (0 + (S.drop 1).length + 1) = some S.length
        have h1 : 0 < S.length := List.length_pos.mpr hS
        congr 1
        rw [List.length_drop]
        omega
      · exact getD_append_last S _
      · simp only [List.length_append, List.length_cons, List.length_nil]
        omega

/-- A settled row survives the merge step of any other incoming row:
a distinct identity either overwrites a different position or appends
at the end, in both cases leaving the settled row and its index
intact. -/
theorem mergedRowAt_persist (S : Sheet) (r r' : InRow)
    (htr : pyStrip r.fio = r.fio) (htr' : pyStrip r'.fio = r'.fio)
    (hner : r'.fio ≠ r.fio) (hP : mergedRowAt S r) :
    mergedRowAt (mergeStep S r') r := by
  unfold mergedRowAt at hP ⊢
  obtain ⟨i, X, hfind, hget, hlt⟩ := hP
  have hnew : ∀ (old : Row) (m : Nat),
      rowMatchesFio (writeRow old (dataValues r' m)) r.fio = false := by
    intro old m
    rw [rowMatches_write old r' m _ htr']
    simp [hner]
  by_cases he' : r'.fio = ""
  · rw [mergeStep_empty S r' (by rw [htr', he'])]
    exact ⟨i, X, hfind, hget, hlt⟩
  · cases hf' : findFio S r'.fio with
    | some i' =>
        obtain ⟨j', hj', hij'⟩ := findFio_decomp hf'
        have hne_ii : i' ≠ i := by
          intro hc
          have hm' : rowMatchesFio ((S.drop 1).getD j' []) r'.fio = true :=
            findRowIdx_getD_matches hj'
          rw [getD_drop_one, ← hij', hc, hget,
            rowMatches_write _ r _ _ htr] at hm'
          have hrr : r.fio = r'.fio := by simpa using hm'
          exact hner hrr.symm
        rw [mergeStep_found S r' i' htr' he' hf']
        refine ⟨i, X, ?_, ?_, ?_⟩
        · have hfind2 := hfind
          simp only [findFio] at hfind2 ⊢
          have hold : rowMatchesFio ((S.drop 1).getD j' []) r.fio = false :=
            rowMatches_unique (findRowIdx_getD_matches hj')
              (fun hc => hner hc.symm)
          rw [hij', drop_one_set, findRowIdx_set_invariant hold (hnew _ _)]
          exact hfind2
        · rw [getD_set_ne S i' i _ (fun hc => hne_ii hc.symm)]
          exact hget
        · simpa [List.length_set] using hlt
    | none =>
        have hSne : S ≠ [] := by
          intro hc
          subst hc
          simp at hlt
        rw [mergeStep_notfound S r' htr' he' hf']
        refine ⟨i, X, ?_, ?_, ?_⟩
        · have hfind2 := hfind
          simp only [findFio] at hfind2 ⊢
          rw [drop_one_append S _ hSne]
          cases hx : findRowIdx (S.drop 1) r.fio with
          | none => rw [hx] at hfind2; simp at hfind2
          | some j =>
              rw [findRowIdx_append_left _ hx]
              rw [hx] at hfind2
              exact hfind2
        · rw [getD_append_left _ hlt]
          exact hget
        · simp only [List.length_append, List.length_cons, List.length_nil]
          omega

theorem foldl_invariant_mem {σ α : Type} (P : σ → Prop) (f : σ → α → σ)
    (l : List α) (hf : ∀ s a, a ∈ l → P s → P (f s a)) :
    ∀ s, P s → P (l.foldl f s) := by
  induction l with
  | nil => intro s h; exact h
  | cons x xs ih =>
      intro s h
      exact ih (fun s' a ha hp => hf s' a (List.mem_cons_of_mem x ha) hp)
        (f s x) (hf s x (by simp) h)

/-- After one full merge pass, every processed identity is settled. -/
theorem mergeRows_establishes (rows : List InRow) : ∀ (S : Sheet), S ≠ [] →
    (∀ r ∈ rows, pyStrip r.fio = r.fio) →
    rows.Pairwise (fun a b => a.fio ≠ b.fio) →
    ∀ r ∈ rows, r.fio ≠ "" → mergedRowAt (mergeRows S rows) r := by
  induction rows with
  | nil => intro S _ _ _ r hr; simp at hr
  | cons a rest ih =>
      intro S hS ht hpw r hr hne
      rcases List.mem_cons.mp hr with hra | hr
      · rw [hra]
        show mergedRowAt (mergeRows (mergeStep S a) rest) a
        have hta : pyStrip a.fio = a.fio := ht a (by simp)
        have hnea : a.fio ≠ "" := by rw [← hra]; exact hne
        exact foldl_invariant_mem (fun s => mergedRowAt s a) mergeStep rest
          (fun s x hx hp => mergedRowAt_persist s a x hta
            (ht x (List.mem_cons_of_mem a hx))
            (fun hc => (List.pairwise_cons.mp hpw).1 x hx hc.symm)
            hp)
          (mergeStep S a)
          (mergedRowAt_establish S a hS hta hnea)
      · show mergedRowAt (mergeRows (mergeStep S a) rest) r
        exact ih (mergeStep S a) (mergeStep_ne_nil S a hS)
          (fun x hx => ht x (List.mem_cons_of_mem a hx))
          (List.pairwise_cons.mp hpw).2 r hr hne

/-- A merge pass over a sheet in which every incoming identity is
already settled changes nothing: each overwrite rewrites the identical
cells (same index, hence the same ordinal formula). -/
theorem mergeRows_fix_settled (S : Sheet) (rows : List InRow)
    (ht : ∀ r ∈ rows, pyStrip r.fio = r.fio)
    (hprop : ∀ r ∈ rows, r.fio ≠ "" → mergedRowAt S r) :
    mergeRows S rows = S := by
  apply foldl_const
  intro r hr
  by_cases hne : r.fio = ""
  · exact mergeStep_empty S r (by rw [ht r hr, hne])
  · have hp := hprop r hr hne
    unfold mergedRowAt at hp
    obtain ⟨i, X, hfind, hget, hlt⟩ := hp
    rw [mergeStep_found S r i (ht r hr) hne hfind, hget,
      writeRow_writeRow X _ _ rfl]
    exact set_getD_self S i _ hget hlt

theorem mem_set_or {l : List Row} {j : Nat} {x row : Row}
    (h : row ∈ l.set j x) : row ∈ l ∨ row = x := by
  induction l generalizing j with
  | nil => simp at h
  | cons a t ih =>
      cases j with
      | zero =>
          simp only [List.set] at h
          rcases List.mem_cons.mp h with h | h
          · exact Or.inr h
          · exact Or.inl (List.mem_cons_of_mem a h)
      | succ j0 =>
          simp only [List.set] at h
          rcases List.mem_cons.mp h with h | h
          · exact Or.inl (by rw [h]; exact List.mem_cons_self a t)
          · rcases ih h with h2 | h2
            · exact Or.inl (List.mem_cons_of_mem a h2)
            · exact Or.inr h2

/-- Every row of a merged sheet is an original row or one the merge
wrote for some incoming row. -/
theorem mergeStep_mem {S : Sheet} {r : InRow} {row : Row}
    (htr : pyStrip r.fio = r.fio) (h : row ∈ mergeStep S r) :
    row ∈ S ∨ ∃ old m, row = writeRow old (dataValues r m) := by
  by_cases he : r.fio = ""
  · rw [mergeStep_empty S r (by rw [htr, he])] at h
    exact Or.inl h
  · cases hf : findFio S r.fio with
    | some i =>
        rw [mergeStep_found S r i htr he hf] at h
        rcases mem_set_or h with h | h
        · exact Or.inl h
        · exact Or.inr ⟨S.getD i [], i + 1, h⟩
    | none =>
        rw [mergeStep_notfound S r htr he hf] at h
        rcases List.mem_append.mp h with h | h
        · exact Or.inl h
        · exact Or.inr ⟨[], S.length + 1, List.mem_singleton.mp h⟩

theorem mergeRows_mem (rows : List InRow) : ∀ (S : Sheet) (row : Row),
    (∀ r ∈ rows, pyStrip r.fio = r.fio) →
    row ∈ mergeRows S rows →
    row ∈ S ∨ ∃ r ∈ rows, ∃ old m, row = writeRow old (dataValues r m) := by
  induction rows with
  | nil => intro S row _ h; exact Or.inl h
  | cons a rest ih =>
      intro S row ht h
      have h' : row ∈ mergeRows (mergeStep S a) rest := h
      rcases ih (mergeStep S a) row (fun x hx => ht x (List.mem_cons_of_mem a hx)) h'
        with h2 | h2
      · rcases mergeStep_mem (ht a (by simp)) h2 with h3 | h3
        · exact Or.inl h3
        · obtain ⟨old, m, h3⟩ := h3
          exact Or.inr ⟨a, by simp, old, m, h3⟩
      · obtain ⟨x, hx, old, m, h2⟩ := h2
        exact Or.inr ⟨x, List.mem_cons_of_mem a hx, old, m, h2⟩

theorem dropTrailingBlanks_subset {s : Sheet} {row : Row}
    (h : row ∈ dropTrailingBlanks s) : row ∈ s := by
  cases s with
  | nil => simp [dropTrailingBlanks] at h
  | cons a t =>
      simp only [dropTrailingBlanks] at h
      rcases List.mem_cons.mp h with h | h
      · rw [h]; exact List.mem_cons_self a t
      · have h2 : row ∈ t.reverse.dropWhile isBlankRow := List.mem_reverse.mp h
        have h3 : row ∈ t.reverse := (List.dropWhile_sublist _).subset h2
        exact List.mem_cons_of_mem a (List.mem_reverse.mp h3)

/-- The strip phase never leaves a sentinel row on the sheet: the cut
happens at the first one. -/
theorem stripTotals_sentinel_free {ws : Sheet} {row : Row}
    (h : row ∈ stripTotals ws) : sentinelRow row = false := by
  unfold stripTotals at h
  have h2 := dropTrailingBlanks_subset h
  have h3 := List.mem_takeWhile_imp h2
  simpa using h3

/-- When the first row is not a sentinel, stripping keeps it as the
header: the result is non-empty and starts with the original row 1. -/
theorem stripTotals_head {ws : Sheet} (hne : ws ≠ [])
    (hhead : sentinelRow (ws.headD []) = false) :
    ∃ t, stripTotals ws = ws.headD [] :: t := by
  cases ws with
  | nil => exact absurd rfl hne
  | cons a t =>
      simp only [List.headD_cons] at hhead ⊢
      unfold stripTotals
      rw [List.takeWhile_cons]
      rw [if_pos (by show (!sentinelRow a) = true; rw [hhead, Bool.not_false])]
      exact ⟨_, rfl⟩

/-- The data region below the header ends in a non-blank row (or is
empty): what `dropTrailingBlanks` guarantees and what re-stripping a
saved document relies on. -/
def lastRowOk (S : Sheet) : Prop :=
  ∀ row, (S.drop 1).getLast? = some row → isBlankRow row = false

theorem head_dropWhile_false {p : Row → Bool} {l : Sheet} {x : Row}
    (h : (l.dropWhile p).head? = some x) : p x = false := by
  induction l with
  | nil => simp [List.dropWhile_nil] at h
  | cons a t ih =>
      rw [List.dropWhile_cons] at h
      by_cases hp : p a = true
      · rw [if_pos hp] at h
        exact ih h
      · rw [if_neg hp] at h
        simp only [List.head?_cons, Option.some.injEq] at h
        rw [← h]
        simpa using hp

theorem stripTotals_lastRowOk (ws : Sheet) : lastRowOk (stripTotals ws) := by
  intro row hrow
  unfold stripTotals at hrow
  cases hA : ws.takeWhile (fun row => !sentinelRow row) with
  | nil =>
      rw [hA] at hrow
      simp [dropTrailingBlanks] at hrow
  | cons a t =>
      rw [hA] at hrow
      simp only [dropTrailingBlanks, List.drop_succ_cons, List.drop_zero] at hrow
      rw [List.getLast?_reverse] at hrow
      exact head_dropWhile_false hrow

theorem set_ne_nil {l : List Row} (j : Nat) (x : Row) (h : l ≠ []) :
    l.set j x ≠ [] := by
  cases l with
  | nil => exact absurd rfl h
  | cons a t => cases j <;> simp

theorem getLast?_cons_ne_nil {t : List Row} (a : Row) (h : t ≠ []) :
    (a :: t).getLast? = t.getLast? := by
  cases t with
  | nil => exact absurd rfl h
  | cons b t2 => rw [List.getLast?_cons_cons]

theorem getLast?_set_or {l : List Row} {j : Nat} {x y : Row}
    (h : (l.set j x).getLast? = some y) : y = x ∨ l.getLast? = some y := by
  induction l generalizing j with
  | nil => rw [List.set_nil] at h; simp at h
  | cons a t ih =>
      cases j with
      | zero =>
          simp only [List.set] at h
          cases t with
          | nil =>
              rw [List.getLast?_singleton] at h
              exact Or.inl (Option.some.inj h).symm
          | cons b t2 =>
              rw [List.getLast?_cons_cons] at h
              exact Or.inr (by rw [List.getLast?_cons_cons]; exact h)
      | succ j0 =>
          simp only [List.set] at h
          by_cases htn : t = []
          · subst htn
            rw [List.set_nil, List.getLast?_singleton] at h
            exact Or.inr (by rw [List.getLast?_singleton]; exact h)
          · have hsn : t.set j0 x ≠ [] := set_ne_nil j0 x htn
            rw [getLast?_cons_ne_nil a hsn] at h
            rcases ih h with h2 | h2
            · exact Or.inl h2
            · exact Or.inr (by rw [getLast?_cons_ne_nil a htn]; exact h2)

/-- A row the merge writes is never fully blank: its column-B cell
carries the (non-empty, stripped) identity key. -/
theorem isBlankRow_write (old : Row) (r : InRow) (m : Nat)
    (htr : pyStrip r.fio = r.fio) (hne : r.fio ≠ "") :
    isBlankRow (writeRow old (dataValues r m)) = false := by
  apply List.all_eq_false.mpr
  refine ⟨CVal.s (pyStrip r.fio), ?_, ?_⟩
  · simp [writeRow, dataValues]
  · show ¬ cellBlank (CVal.s (pyStrip r.fio)) = true
    show ¬ (decide (pyStrip (cvStr (CVal.s (pyStrip r.fio))) = "") = true)
    rw [show cvStr (CVal.s (pyStrip r.fio)) = pyStrip r.fio from rfl, htr, htr]
    simp [hne]

theorem mergeStep_lastRowOk (S : Sheet) (r : InRow)
    (htr : pyStrip r.fio = r.fio) (hS : S ≠ [])
    (hQ : lastRowOk S) : lastRowOk (mergeStep S r) := by
  by_cases he : r.fio = ""
  · rw [mergeStep_empty S r (by rw [htr, he])]
    exact hQ
  · cases hf : findFio S r.fio with
    | some i =>
        obtain ⟨j, hj, hij⟩ := findFio_decomp hf
        rw [mergeStep_found S r i htr he hf]
        intro row hrow
        rw [hij, drop_one_set] at hrow
        rcases getLast?_set_or hrow with h2 | h2
        · rw [h2]
          exact isBlankRow_write _ r _ htr he
        · exact hQ row h2
    | none =>
        rw [mergeStep_notfound S r htr he hf]
        intro row hrow
        rw [drop_one_append S _ hS, List.getLast?_concat] at hrow
        rw [← Option.some.inj hrow]
        exact isBlankRow_write [] r _ htr he

theorem mergeRows_lastRowOk (rows : List InRow) : ∀ (S : Sheet), S ≠ [] →
    (∀ r ∈ rows, pyStrip r.fio = r.fio) →
    lastRowOk S → lastRowOk (mergeRows S rows) := by
  induction rows with
  | nil => intro S _ _ hQ; exact hQ
  | cons a rest ih =>
      intro S hS ht hQ
      show lastRowOk (mergeRows (mergeStep S a) rest)
      exact ih (mergeStep S a) (mergeStep_ne_nil S a hS)
        (fun x hx => ht x (List.mem_cons_of_mem a hx))
        (mergeStep_lastRowOk S a (ht a (by simp)) hS hQ)

end IdempotenceLemmas

section StripLemmas

theorem takeWhile_append_cut (p : Row → Bool) (A : Sheet) (b : Row) (B : Sheet)
    (hA : ∀ x ∈ A, p x = true) (hb : p b = false) :
    (A ++ b :: B).takeWhile p = A := by
  induction A with
  | nil => simp [List.takeWhile_cons, hb]
  | cons a t ih =>
      simp only [List.cons_append, List.takeWhile_cons, hA a (by simp)]
      rw [ih (fun x hx => hA x (List.mem_cons_of_mem a hx))]
      simp

theorem getD_replicate_empty (n i : Nat) :
    (List.replicate n CVal.empty).getD i CVal.empty = CVal.empty := by
  induction n generalizing i with
  | zero => simp
  | succ m ih =>
      cases i with
      | zero => simp [List.replicate]
      | succ i0 => simp [List.replicate, List.getD_cons_succ, ih]

theorem sentinelRow_replicate (n : Nat) :
    sentinelRow (List.replicate n CVal.empty) = false := by
  unfold sentinelRow
  rw [getD_replicate_empty]
  decide

theorem isBlankRow_replicate (n : Nat) :
    isBlankRow (List.replicate n CVal.empty) = true := by
  unfold isBlankRow
  rw [List.all_eq_true]
  intro c hc
  rw [List.eq_of_mem_replicate hc]
  rfl

theorem sentinelRow_label (l : String) (rest : List CVal) :
    sentinelRow (CVal.empty :: CVal.s l :: rest) =
      strStartsWith (pyLower (pyStrip l)) "комплексный пациент" := rfl

theorem sentinelRow_write (old : Row) (r : InRow) (m : Nat)
    (htr : pyStrip r.fio = r.fio) :
    sentinelRow (writeRow old (dataValues r m)) =
      strStartsWith (pyLower r.fio) "комплексный пациент" := by
  show strStartsWith (pyLower (pyStrip (pyStrip r.fio))) "комплексный пациент" = _
  rw [htr, htr]

/-- Stripping recovers exactly the sheet the blocks were appended to,
provided it carries no sentinel row and its data region does not end
in a fully blank row. -/
theorem stripTotals_appendBlocks_eq (F : Sheet) (hne : F ≠ [])
    (hsent : ∀ row ∈ F, sentinelRow row = false)
    (hblank : lastRowOk F) :
    stripTotals (appendBlocks F) = F := by
  have hsplit : appendBlocks F = (F ++ [List.replicate (maxCols F) CVal.empty]) ++
      ([CVal.empty, CVal.s "Комплексный пациент",
          CVal.fml (countFormula 5 F.length "Комплексный пациент")] ::
        ((blockType1Rows F.length).tail ++ [[]] ++ blockType2Rows F.length ++ [[]]
          ++ summaryRows F.length (F.length + 13))) := by
    simp [appendBlocks, blockType1Rows, List.append_assoc]
  unfold stripTotals
  rw [hsplit]
  rw [takeWhile_append_cut _ _ _ _ ?hA ?hb]
  case hA =>
    intro x hx
    rcases List.mem_append.mp hx with hx | hx
    · simp [hsent x hx]
    · rcases List.mem_singleton.mp hx with rfl
      simp [sentinelRow_replicate]
  case hb =>
    have hst : sentinelRow [CVal.empty, CVal.s "Комплексный пациент",
        CVal.fml (countFormula 5 F.length "Комплексный пациент")] = true := by
      rw [sentinelRow_label]; decide
    simp [hst]
  cases F with
  | nil => exact absurd rfl hne
  | cons h0 D =>
      simp only [List.cons_append, dropTrailingBlanks]
      congr 1
      rw [List.reverse_append]
      simp only [List.reverse_cons, List.reverse_nil, List.nil_append,
        List.singleton_append]
      rw [List.dropWhile_cons]
      rw [isBlankRow_replicate]
      simp only [if_true]
      cases hD : D.reverse with
      | nil =>
          rw [List.dropWhile_nil, List.reverse_nil]
          exact (List.reverse_eq_nil_iff.mp hD).symm
      | cons x rest =>
          have hDeq : D = rest.reverse ++ [x] := by
            rw [← List.reverse_reverse D, hD, List.reverse_cons]
          have hxl : D.getLast? = some x := by
            rw [hDeq]
            exact List.getLast?_concat _
          have hx : isBlankRow x = false := hblank x hxl
          rw [List.dropWhile_cons]
          simp only [hx, Bool.false_eq_true, if_false]
          rw [← hD, List.reverse_reverse]

end StripLemmas

/-- One reopen-and-merge cycle on an arbitrary pre-existing workbook is
idempotent at the document level: re-stripping the saved document
recovers the merged data rows exactly, and a second pass of the same
rows set finds every identity settled and rewrites identical cells. -/
theorem remerge_eq_of_wf (ws : Sheet) (rows : List InRow)
    (ht : ∀ r ∈ rows, pyStrip r.fio = r.fio)
    (hpw : rows.Pairwise (fun a b => a.fio ≠ b.fio))
    (hsen : ∀ r ∈ rows, strStartsWith (pyLower r.fio) "комплексный пациент" = false)
    (hne : ws ≠ []) (hhead : sentinelRow (ws.headD []) = false) :
    appendBlocks (mergeRows (stripTotals
        (appendBlocks (mergeRows (stripTotals ws) rows))) rows) =
      appendBlocks (mergeRows (stripTotals ws) rows) := by
  obtain ⟨t0, hhd⟩ := stripTotals_head hne hhead
  have hS0ne : stripTotals ws ≠ [] := by rw [hhd]; simp
  have hS1ne : mergeRows (stripTotals ws) rows ≠ [] :=
    mergeRows_ne_nil (stripTotals ws) rows hS0ne
  have hsentF : ∀ row ∈ mergeRows (stripTotals ws) rows,
      sentinelRow row = false := by
    intro row hrow
    rcases mergeRows_mem rows (stripTotals ws) row ht hrow with h | h
    · exact stripTotals_sentinel_free h
    · obtain ⟨r, hr, old, m, rfl⟩ := h
      rw [sentinelRow_write old r m (ht r hr)]
      exact hsen r hr
  have hQ : lastRowOk (mergeRows (stripTotals ws) rows) :=
    mergeRows_lastRowOk rows (stripTotals ws) hS0ne ht
      (stripTotals_lastRowOk ws)
  have hstripF := stripTotals_appendBlocks_eq _ hS1ne hsentF hQ
  have hfix := mergeRows_fix_settled (mergeRows (stripTotals ws) rows) rows ht
    (mergeRows_establishes rows (stripTotals ws) hS0ne ht hpw)
  rw [hstripF, hfix]

/-- **C8**: re-running the aggregate-report merge with an unchanged
rows set is idempotent, over any pre-existing report document —
absent, fresh, or a cumulative one left by earlier runs: the second
merge's data-row region is byte-for-byte the first one's (here even
the full documents coincide, since every incoming row finds its
previously written row again at the same index and rewrites identical
cells, including the ordinal formula).  Hypotheses: the incoming
identity keys are stripped strings, pairwise distinct (a *set* of
identity-keyed rows) and none starts with the sentinel label the strip
phase keys on; the pre-existing workbook is non-empty (any real
workbook has at least one row) and its first row does not itself carry
the sentinel label in column B (true of every document this exporter
writes, whose header cell B1 is "ФИО"). -/
theorem C8_remerge_idempotent (doc : Option Sheet) (rows : List InRow)
    (ht : ∀ r ∈ rows, pyStrip r.fio = r.fio)
    (hpw : rows.Pairwise (fun a b => a.fio ≠ b.fio))
    (hsen : ∀ r ∈ rows, strStartsWith (pyLower r.fio) "комплексный пациент" = false)
    (hdoc : doc.getD [headerRow] ≠ [])
    (hhead : sentinelRow ((doc.getD [headerRow]).headD []) = false) :
    dataRegion (mgmtMerge (some (mgmtMerge doc rows)) rows) =
      dataRegion (mgmtMerge doc rows) := by
  have hunf : mgmtMerge doc rows =
      appendBlocks (mergeRows (stripTotals (doc.getD [headerRow])) rows) := by
    cases doc <;> rfl
  have e2 : mgmtMerge (some (mgmtMerge doc rows)) rows = mgmtMerge doc rows := by
    rw [hunf]
    exact remerge_eq_of_wf (doc.getD [headerRow]) rows ht hpw hsen hdoc hhead
  rw [e2]

/-- Witness for C8 at a concrete instance: a cumulative document that
already holds one previously merged row is reopened and remerged with
a one-row set, twice. -/
theorem C8_remerge_idempotent_witness :
    dataRegion (mgmtMerge (some (mgmtMerge (some (mgmtMerge none [rowW2]))
        [rowW1])) [rowW1]) =
      dataRegion (mgmtMerge (some (mgmtMerge none [rowW2])) [rowW1]) :=
  C8_remerge_idempotent (some (mgmtMerge none [rowW2])) [rowW1]
    (by intro r hr; simp at hr; rw [hr]; decide)
    (by simp)
    (by intro r hr; simp at hr; rw [hr]; decide)
    (by decide)
    (by decide)
